import Mathlib

/-!
# Verification of the GiteaAutoSync change-detection and sync engine

Shallow embedding of the core of `src/index.js` (and, where claims refer to
them, the two source variants `src/unnamed/part_000` and `src/unnamed/part_001`)
of the GiteaAutoSync repository, together with proofs about the embedded
operations.

Modelling conventions:
* Absolute filesystem paths are lists of path segments (`PathT`); the process
  runs on Linux, so the separator is `/` and resolved absolute paths contain
  no empty, `.` or `..` segments.
* External side effects (git subprocesses, the Gitea HTTP API, filesystem
  probes) are supplied by a `World` oracle.  A git invocation is keyed by the
  number of commands issued so far, so the same command can succeed or fail on
  different attempts (first push vs. retried push).
* Every embedded operation returns the updated command counter, the list of
  git command argument vectors it issued (in order), and its result.
-/

namespace GiteaAutoSync

/-- Character-list test: does `s` start with `pre`?  Mirrors JavaScript
`String.prototype.startsWith` for the ASCII strings this program uses. -/
def charsStart : List Char → List Char → Bool
  | _, [] => true
  | [], _ :: _ => false
  | c :: cs, p :: ps => (c == p) && charsStart cs ps

/-- `strStartsWith s pre`: `s` starts with `pre` (JS `s.startsWith(pre)`). -/
def strStartsWith (s pre : String) : Bool :=
  charsStart s.data pre.data

/-- `strEndsWith s suf`: `s` ends with `suf` (JS `s.endsWith(suf)`). -/
def strEndsWith (s suf : String) : Bool :=
  charsStart s.data.reverse suf.data.reverse

/-- Character-list substring search: does `s` contain `pat` contiguously? -/
def charsContain (pat : List Char) : List Char → Bool
  | [] => pat.isEmpty
  | c :: rest => charsStart (c :: rest) pat || charsContain pat rest

/-- `containsSub s pat`: `pat` occurs as a substring of `s`
(JS `regex-literal-without-metachars.test(s)` / `s.includes(pat)`). -/
def containsSub (s pat : String) : Bool :=
  charsContain pat.data s.data

/-- A git command: the argument vector passed after the `git` executable. -/
abbrev Cmd := List String

/-- An absolute path, as its list of segments. -/
abbrev PathT := List String

/-- Trimmed stdout/stderr of a successful external command (what `runGit`
in `src/index.js` resolves with). -/
structure GitOutput where
  stdout : String
  stderr : String
deriving DecidableEq

/-- A failed external command: its exit code and the stderr text (or the
spawn-failure message when stderr is empty), pre-trim. -/
structure CmdErr where
  code : Nat
  msg : String
deriving DecidableEq

/-- Result of `GET /repos/{owner}/{name}` against the Gitea API. -/
inductive ApiResult where
  | ok
  | notFound
  | otherError (msg : String)
deriving DecidableEq

/-- Body of `POST /user/repos` as sent by `ensureGiteaRepository`
(`src/index.js` lines 610-615).  `private_` stands for the JSON field
`private` (a Lean keyword). -/
structure RepoPayload where
  name : String
  private_ : Bool
  default_branch : String
  auto_init : Bool
deriving DecidableEq

/-- An HTTP call made by the repository ensurer. -/
inductive ApiCall where
  | getRepo (owner name : String)
  | createRepo (payload : RepoPayload)
deriving DecidableEq

/-- Oracle for everything outside the process: the `git` subprocess (keyed by
how many git commands were already issued, so retries can behave differently),
the Gitea API, and the filesystem probes used by the sync pipeline. -/
structure World where
  git : Nat → Cmd → Except CmdErr GitOutput
  getRepo : ApiResult
  createRepo : Except String Unit
  gitDirExists : Bool
  gitignoreExists : Bool
  writeGitignoreOk : Except String Unit
  nestedGitDirs : List String
  rmNestedOk : Except String Unit

/-- The fixed remote alias (`REMOTE_NAME` in the source). -/
def REMOTE_NAME : String := "gitea"

/-- Error-message wrapping done by `runGit` (`src/index.js` lines 827-833):
`git <args joined>: <stderr-or-message>`. -/
def wrapMsg (args : Cmd) (msg : String) : String :=
  "git " ++ String.intercalate " " args ++ ": " ++ msg

/-- One `runGit` invocation: consults the oracle and wraps failures. -/
def runGitCall (w : World) (k : Nat) (args : Cmd) : Except String GitOutput :=
  match w.git k args with
  | .ok o => .ok o
  | .error e => .error (wrapMsg args e.msg)

/-- The regex `/non-fast-forward|fetch first|tip of your current branch is
behind/` from `pushChanges` (`src/index.js` line 770), applied to a wrapped
error message. -/
def nonFastForwardMsg (msg : String) : Bool :=
  containsSub msg "non-fast-forward" || containsSub msg "fetch first" ||
    containsSub msg "tip of your current branch is behind"

/-- `currentBranch` (`src/index.js` lines 798-805): `rev-parse --abbrev-ref
HEAD`, defaulting to `main` on failure or empty output.  Returns the new
counter, issued commands, and the branch name. -/
def currentBranch (w : World) (k : Nat) : Nat × List Cmd × String :=
  let args : Cmd := ["rev-parse", "--abbrev-ref", "HEAD"]
  match runGitCall w k args with
  | .ok o => (k + 1, [args], if o.stdout == "" then "main" else o.stdout)
  | .error _ => (k + 1, [args], "main")

/-- Branch name produced by `currentBranch` from the raw oracle outcome of its
single `rev-parse` call. -/
def branchOf (r : Except CmdErr GitOutput) : String :=
  match r with
  | .ok o => if o.stdout == "" then "main" else o.stdout
  | .error _ => "main"

/-- `branchHasUpstream` (`src/index.js` lines 807-814): true iff
`rev-parse --abbrev-ref --symbolic-full-name <branch>@{u}` succeeds. -/
def branchHasUpstream (w : World) (k : Nat) (branch : String) :
    Nat × List Cmd × Bool :=
  let args : Cmd :=
    ["rev-parse", "--abbrev-ref", "--symbolic-full-name", branch ++ "@{u}"]
  match runGitCall w k args with
  | .ok _ => (k + 1, [args], true)
  | .error _ => (k + 1, [args], false)

/-- `pruneRepository` (`src/index.js` lines 784-796): no-op when the
configured prune age is zero; otherwise `reflog expire` then `gc`, with any
failure swallowed (a warning).  The `gc` step is skipped if `reflog expire`
fails; a `gc` failure is still an issued command. -/
def pruneRepository (w : World) (k : Nat) (pruneAgeDays : Nat) :
    Nat × List Cmd :=
  if pruneAgeDays = 0 then (k, [])
  else
    let pruneArg := toString pruneAgeDays ++ ".days"
    let expireArgs : Cmd := ["reflog", "expire", "--expire=" ++ pruneArg, "--all"]
    match runGitCall w k expireArgs with
    | .error _ => (k + 1, [expireArgs])
    | .ok _ => (k + 2, [expireArgs, ["gc", "--prune=" ++ pruneArg]])

/-- `pushChanges` (`src/index.js` lines 751-781).  Determines the branch and
upstream, runs `fetch --all` then the push inside a try block; on a failure
whose wrapped message matches the non-fast-forward regex it runs
`pull --rebase` and retries the same push arguments; other failures
propagate.  On overall success, runs the optional maintenance step when
`pruneAfter` is set. -/
def pushChanges (w : World) (k0 : Nat) (pruneAgeDays : Nat)
    (pruneAfter : Bool) : Nat × List Cmd × Except String Unit :=
  let r1 := currentBranch w k0
  let branch := r1.2.2
  let r2 := branchHasUpstream w r1.1 branch
  let hasUpstream := r2.2.2
  let pushArgs : Cmd :=
    if hasUpstream then ["push", REMOTE_NAME, branch]
    else ["push", "--set-upstream", REMOTE_NAME, branch]
  let fetchArgs : Cmd := ["fetch", "--all"]
  let head := r1.2.1 ++ r2.2.1
  let attempt : Nat × List Cmd × Except String Unit :=
    match runGitCall w r2.1 fetchArgs with
    | .error e => (r2.1 + 1, [fetchArgs], .error e)
    | .ok _ =>
      match runGitCall w (r2.1 + 1) pushArgs with
      | .ok _ => (r2.1 + 2, [fetchArgs, pushArgs], .ok ())
      | .error e => (r2.1 + 2, [fetchArgs, pushArgs], .error e)
  match attempt with
  | (k3, t3, .ok _) =>
    if pruneAfter then
      let pr := pruneRepository w k3 pruneAgeDays
      (pr.1, head ++ t3 ++ pr.2, .ok ())
    else (k3, head ++ t3, .ok ())
  | (k3, t3, .error e) =>
    if nonFastForwardMsg e then
      let pullArgs : Cmd := ["pull", "--rebase", REMOTE_NAME, branch]
      match runGitCall w k3 pullArgs with
      | .error e2 => (k3 + 1, head ++ t3 ++ [pullArgs], .error e2)
      | .ok _ =>
        match runGitCall w (k3 + 1) pushArgs with
        | .ok _ =>
          if pruneAfter then
            let pr := pruneRepository w (k3 + 2) pruneAgeDays
            (pr.1, head ++ t3 ++ [pullArgs, pushArgs] ++ pr.2, .ok ())
          else (k3 + 2, head ++ t3 ++ [pullArgs, pushArgs], .ok ())
        | .error e3 => (k3 + 2, head ++ t3 ++ [pullArgs, pushArgs], .error e3)
    else (k3, head ++ t3, .error e)

/-- `hasStagedChanges` (`src/index.js` lines 483-493): `diff --cached --quiet`
directly through `execFile` (no message wrapping); exit code 1 means staged
changes exist, any other failure is rethrown with its raw message. -/
def hasStagedChanges (w : World) (k : Nat) : Nat × List Cmd × Except String Bool :=
  let args : Cmd := ["diff", "--cached", "--quiet"]
  match w.git k args with
  | .ok _ => (k + 1, [args], .ok false)
  | .error e => (k + 1, [args], if e.code == 1 then .ok true else .error e.msg)

/-- Length of the longest common segment prefix of two paths. -/
def lcpLen : List String → List String → Nat
  | a :: as, b :: bs => if a = b then lcpLen as bs + 1 else 0
  | _, _ => 0

/-- `path.relative(fromPath, toPath)` on resolved absolute paths, as
segments: climb out of the unshared part of `fromPath` with `..` segments,
then descend into `toPath`. -/
def relativeSegs (fromPath toPath : PathT) : List String :=
  let l := lcpLen fromPath toPath
  List.replicate (fromPath.length - l) ".." ++ toPath.drop l

/-- JS `relativePath.startsWith('..')` on the joined segment list: the first
segment starts with `..`. -/
def relStartsDotDot : List String → Bool
  | [] => false
  | s :: _ => strStartsWith s ".."

/-- `syncSinglePath` (`src/index.js` lines 503-536), the quick-sync body.
Returns immediately when the event path is not strictly inside the project.
Stages (or removes) the one path, checks the index, commits, and pushes with
maintenance disabled; staging, commit and push failures are caught and
logged, only a non-exit-1 `diff --cached` failure propagates. -/
def syncSinglePath (w : World) (k0 : Nat) (projectPath absolutePath : PathT)
    (event : String) (pruneAgeDays : Nat) (now : String) :
    Nat × List Cmd × Except String Unit :=
  let rel := relativeSegs projectPath absolutePath
  if rel.isEmpty || relStartsDotDot rel then (k0, [], .ok ())
  else
    let relativePath := String.intercalate "/" rel
    let stageArgs : Cmd :=
      if event == "unlink" || event == "unlinkDir" then
        ["rm", "-rf", relativePath]
      else ["add", relativePath]
    match runGitCall w k0 stageArgs with
    | .error _ => (k0 + 1, [stageArgs], .ok ())
    | .ok _ =>
      let r2 := hasStagedChanges w (k0 + 1)
      match r2.2.2 with
      | .error e => (r2.1, [stageArgs] ++ r2.2.1, .error e)
      | .ok false => (r2.1, [stageArgs] ++ r2.2.1, .ok ())
      | .ok true =>
        let commitArgs : Cmd :=
          ["commit", "-m", "Auto backup (quick) " ++ relativePath ++ " " ++ now]
        match runGitCall w r2.1 commitArgs with
        | .error _ => (r2.1 + 1, [stageArgs] ++ r2.2.1 ++ [commitArgs], .ok ())
        | .ok _ =>
          let r4 := pushChanges w (r2.1 + 1) pruneAgeDays false
          (r4.1, [stageArgs] ++ r2.2.1 ++ [commitArgs] ++ r4.2.1, .ok ())

/-! ## The two source variants of the push protocol -/

/-- The regex `/non-fast-forward|fetch first|failed to push/` of the
`pushChanges` variant in `src/unnamed/part_000` (line 638). -/
def matchV0 (msg : String) : Bool :=
  containsSub msg "non-fast-forward" || containsSub msg "fetch first" ||
    containsSub msg "failed to push"

/-- `pushChanges` variant from `src/unnamed/part_000` (lines 620-647): no
pre-fetch and no rebase; a push failure whose wrapped message matches
`matchV0` falls through to a single force push (preserving the
set-upstream flag), anything else is rethrown. -/
def pushChangesV0 (w : World) (k0 : Nat) : Nat × List Cmd × Except String Unit :=
  let r1 := currentBranch w k0
  let branch := r1.2.2
  let r2 := branchHasUpstream w r1.1 branch
  let hasUpstream := r2.2.2
  let pushArgs : Cmd :=
    if hasUpstream then ["push", REMOTE_NAME, branch]
    else ["push", "--set-upstream", REMOTE_NAME, branch]
  let head := r1.2.1 ++ r2.2.1
  match runGitCall w r2.1 pushArgs with
  | .ok _ => (r2.1 + 1, head ++ [pushArgs], .ok ())
  | .error e =>
    if matchV0 e then
      let forceArgs : Cmd :=
        if hasUpstream then ["push", "--force", REMOTE_NAME, branch]
        else ["push", "--set-upstream", "--force", REMOTE_NAME, branch]
      match runGitCall w (r2.1 + 1) forceArgs with
      | .ok _ => (r2.1 + 2, head ++ [pushArgs, forceArgs], .ok ())
      | .error e2 => (r2.1 + 2, head ++ [pushArgs, forceArgs], .error e2)
    else (r2.1 + 1, head ++ [pushArgs], .error e)

/-- The regex `/non-fast-forward|fetch first|rejected/` of the `push`
function in `src/unnamed/part_001` (line 304). -/
def matchV1 (msg : String) : Bool :=
  containsSub msg "non-fast-forward" || containsSub msg "fetch first" ||
    containsSub msg "rejected"

/-- One `git` invocation in the `src/unnamed/part_001` variant: its wrapper
throws the raw stderr (or spawn message) without prefixing the command. -/
def rawGitCall (w : World) (k : Nat) (args : Cmd) : Except String GitOutput :=
  match w.git k args with
  | .ok o => .ok o
  | .error e => .error e.msg

/-- `getCurrentBranch` from `src/unnamed/part_001` (lines 314-321). -/
def getCurrentBranchV1 (w : World) (k : Nat) : Nat × List Cmd × String :=
  let args : Cmd := ["rev-parse", "--abbrev-ref", "HEAD"]
  match rawGitCall w k args with
  | .ok o => (k + 1, [args], if o.stdout == "" then "main" else o.stdout)
  | .error _ => (k + 1, [args], "main")

/-- `checkUpstream` from `src/unnamed/part_001` (lines 323-330): note the
missing `--symbolic-full-name` compared to the main variant. -/
def checkUpstreamV1 (w : World) (k : Nat) (branch : String) :
    Nat × List Cmd × Bool :=
  let args : Cmd := ["rev-parse", "--abbrev-ref", branch ++ "@{u}"]
  match rawGitCall w k args with
  | .ok _ => (k + 1, [args], true)
  | .error _ => (k + 1, [args], false)

/-- `push` from `src/unnamed/part_001` (lines 285-312): a push failure whose
message matches `matchV1` triggers a single force push (always without
set-upstream), anything else is rethrown. -/
def pushV1 (w : World) (k0 : Nat) : Nat × List Cmd × Except String Unit :=
  let r1 := getCurrentBranchV1 w k0
  let branch := r1.2.2
  let r2 := checkUpstreamV1 w r1.1 branch
  let hasUpstream := r2.2.2
  let pushArgs : Cmd :=
    if hasUpstream then ["push", REMOTE_NAME, branch]
    else ["push", "--set-upstream", REMOTE_NAME, branch]
  let head := r1.2.1 ++ r2.2.1
  match rawGitCall w r2.1 pushArgs with
  | .ok _ => (r2.1 + 1, head ++ [pushArgs], .ok ())
  | .error e =>
    if matchV1 e then
      let forceArgs : Cmd := ["push", "--force", REMOTE_NAME, branch]
      match rawGitCall w (r2.1 + 1) forceArgs with
      | .ok _ => (r2.1 + 2, head ++ [pushArgs, forceArgs], .ok ())
      | .error e2 => (r2.1 + 2, head ++ [pushArgs, forceArgs], .error e2)
    else (r2.1 + 1, head ++ [pushArgs], .error e)

/-! ## Project resolution (`resolveProjectFromPath`) -/

/-- Segment-wise test that `absolute` starts with `root` (the JS test
`absolute === root || absolute.startsWith(root + path.sep)` on resolved
absolute paths, where segments contain no separator). -/
def startsWithSegs : PathT → PathT → Bool
  | _, [] => true
  | [], _ :: _ => false
  | a :: as, b :: bs => (a == b) && startsWithSegs as bs

/-- The root lookup of `resolveProjectFromPath` (`src/index.js` lines
444-447): the first configured root that equals the path or is a proper
path-prefix of it. -/
def findRoot (roots : List PathT) (absolute : PathT) : Option PathT :=
  roots.find? fun r =>
    absolute == r || (startsWithSegs absolute r && !(absolute == r))

/-- `resolveProjectFromPath` (`src/index.js` lines 439-464): maps an absolute
path to the top-level project directory under the first matching configured
root, or `none` when outside all roots, equal to the matched root, or under a
hidden top-level entry. -/
def resolveProjectFromPath (roots : List PathT) (targetPath : PathT) :
    Option PathT :=
  match findRoot roots targetPath with
  | none => none
  | some root =>
    let relative := relativeSegs root targetPath
    if relative.isEmpty then none
    else if relStartsDotDot relative then none
    else
      match relative.filter (fun s => !(s == "")) with
      | [] => none
      | topLevel :: _ =>
        if topLevel == "" || strStartsWith topLevel "." then none
        else some (root ++ [topLevel])

/-! ## Change scheduler: pending set, debounce timer, drain loop -/

/-- JS `Set.prototype.add` on an insertion-ordered list. -/
def setAdd (l : List String) (x : String) : List String :=
  if x ∈ l then l else l ++ [x]

/-- The scheduler state touched by `scheduleProject` (`src/index.js` lines
403-419): the pending set and the single shared debounce timer, modelled by
the number of times it has been (re-)armed. -/
structure SchedState where
  pendingProjects : List String
  flushTimerGen : Nat
deriving DecidableEq

/-- `scheduleProject` (`src/index.js` lines 403-419): idempotent insertion
into the pending set, plus clearing and re-arming the one shared timer. -/
def scheduleProject (s : SchedState) (projectPath : String) : SchedState :=
  { pendingProjects := setAdd s.pendingProjects projectPath,
    flushTimerGen := s.flushTimerGen + 1 }

/-- The drain loop of `processQueue` (`src/index.js` lines 427-433): take the
first pending project, delete it, sync it (the per-project error is caught),
and merge the projects marked pending *during* that sync (the batch
`arrivals.headD []`) before re-checking the set.  Returns the projects synced,
in order.  The loop exits as soon as the pending set is empty. -/
def drainAux : List String → List (List String) → List String
  | [], _ => []
  | p :: rest, arrivals =>
    p :: drainAux ((arrivals.headD []).foldl setAdd rest) arrivals.tail
termination_by pending arrivals => (arrivals.length, pending.length)
decreasing_by
  cases arrivals with
  | nil => simp [Prod.lex_iff]
  | cons b bs => simp [Prod.lex_iff]

/-- `processQueue` (`src/index.js` lines 421-437): the re-entrancy guard plus
the drain loop.  Returns the final state and the projects synced by this
call. -/
def processQueue (queueProcessing : Bool) (pendingProjects : List String)
    (arrivals : List (List String)) : Bool × List String × List String :=
  if queueProcessing then (queueProcessing, pendingProjects, [])
  else (false, [], drainAux pendingProjects arrivals)

/-- The in-flight guard of `runFullSync` (`src/index.js` lines 205-226):
given the current `fullSyncPromise` and the identity of the sweep that would
be started, return the new guard value and the promise the caller awaits. -/
def runFullSyncEnter (fullSyncPromise : Option Nat) (fresh : Nat) :
    Option Nat × Nat :=
  match fullSyncPromise with
  | some p => (some p, p)
  | none => (some fresh, fresh)

/-! ## Quick-sync chain (`queueQuickSync`) -/

/-- An observable event at the quick-sync lane: a filesystem event enqueues
one single-path operation (identified by its arrival number), and a `settle`
lets the lane run its next queued operation to completion (`src/index.js`
lines 495-501: each link of `quickSyncChain` runs only after the previous
one settled, and its error is caught so the chain continues). -/
inductive ChainEvent where
  | enqueue (op : Nat)
  | settle
deriving DecidableEq

/-- State of the quick-sync lane: operations waiting in arrival order, and
the operations that already ran, paired with whether they failed. -/
structure ChainState where
  queue : List Nat
  executed : List (Nat × Bool)
deriving DecidableEq

/-- Run the next queued quick-sync to completion; its failure (recorded via
`errs`) is caught by the `.catch` on the chain. -/
def chainSettle (errs : Nat → Bool) (s : ChainState) : ChainState :=
  match s.queue with
  | [] => s
  | op :: rest => ⟨rest, s.executed ++ [(op, errs op)]⟩

/-- Drive the quick-sync lane through a list of events. -/
def chainRun (errs : Nat → Bool) (evs : List ChainEvent) (s : ChainState) :
    ChainState :=
  evs.foldl
    (fun st ev =>
      match ev with
      | .enqueue op => ⟨st.queue ++ [op], st.executed⟩
      | .settle => chainSettle errs st)
    s

/-- The quick-sync operations in filesystem-event arrival order. -/
def arrivalOrder (evs : List ChainEvent) : List Nat :=
  evs.filterMap fun ev =>
    match ev with
    | .enqueue op => some op
    | .settle => none

/-! ## Ignore resolver (`buildChokidarIgnorePatterns` and friends) -/

/-- `BUILTIN_IGNORE_PATTERNS` (`src/index.js` lines 17-40). -/
def BUILTIN_IGNORE_PATTERNS : List String :=
  ["node_modules/", "dist/", "build/", "logs/", "tmp/", "backup/", "cache/",
   ".cache/", "coverage/", "data/", ".env", ".env.*", "*.log", "*.tmp",
   "*.sqlite", "*.db", "*.tar", "*.zip", "*.tgz", "*.gz", "__pycache__/",
   ".DS_Store"]

/-- The character class `[/\\]` used by the generated path regexes. -/
def sepClass (c : Char) : Bool := c == '/' || c == '\\'

/-- Tail of the `.git` regex literal `/(^|[/\\])\\.git($|[/\\])/`
(`src/index.js` line 261).  Inside a JavaScript regex literal `\\` matches
one literal backslash character and the following unescaped `.` matches any
character, so after the leading anchor/separator this demands a literal
backslash, then any character, then `git`, then end-or-separator. -/
def brokenGitTail : List Char → Bool
  | '\\' :: _ :: 'g' :: 'i' :: 't' :: rest =>
    match rest with
    | [] => true
    | c :: _ => sepClass c
  | _ => false

/-- Search for the separator-prefixed alternative of the `.git` regex
anywhere in the string. -/
def brokenGitSearch : List Char → Bool
  | [] => false
  | c :: rest => (sepClass c && brokenGitTail rest) || brokenGitSearch rest

/-- `.test` of the always-pushed `.git` regex of
`buildChokidarIgnorePatterns`. -/
def brokenGitTest (s : List Char) : Bool :=
  brokenGitTail s || brokenGitSearch s

/-- Match of a trailing-slash directory pattern's regex
`(^|[/\\])name($|[/\\])` right at the head of the list (the name is
regex-escaped by the source, hence literal here). -/
def dirSegAt (nm s : List Char) : Bool :=
  charsStart s nm &&
    (match s.drop nm.length with
     | [] => true
     | c :: _ => sepClass c)

/-- Search for the separator-prefixed alternative of a directory pattern. -/
def dirSegSearch (nm : List Char) : List Char → Bool
  | [] => false
  | c :: rest => (sepClass c && dirSegAt nm rest) || dirSegSearch nm rest

/-- `.test` of a directory pattern's regex. -/
def dirSegTest (nm s : List Char) : Bool :=
  dirSegAt nm s || dirSegSearch nm s

/-- Search for the separator-prefixed alternative of an exact pattern's
regex `(^|[/\\])name$`. -/
def exactSearch (nm : List Char) : List Char → Bool
  | [] => false
  | c :: rest => (sepClass c && rest == nm) || exactSearch nm rest

/-- `.test` of an exact pattern's regex. -/
def exactTest (nm s : List Char) : Bool :=
  s == nm || exactSearch nm s

/-- Token of the regex built from a wildcard pattern: the source escapes
`.`, turns `*` into `.*` and `?` into `.` (`src/index.js` lines 273-277).
Backslashes inside user patterns are not escaped by that branch; they are
modelled as literal characters here. -/
inductive RTok where
  | lit (c : Char)
  | anyOne
  | anyStar
deriving DecidableEq

/-- Compile a wildcard pattern's characters into regex tokens. -/
def wildTokens (p : String) : List RTok :=
  p.data.map fun c =>
    if c == '*' then .anyStar else if c == '?' then .anyOne else .lit c

/-- Match a token list at the head of the character list (the match may end
before the characters do, since the generated regex is unanchored). -/
def rMatchHere : List RTok → List Char → Bool
  | [], _ => true
  | .lit c :: ts, d :: ds => (c == d) && rMatchHere ts ds
  | .lit _ :: _, [] => false
  | .anyOne :: ts, _ :: ds => rMatchHere ts ds
  | .anyOne :: _, [] => false
  | .anyStar :: ts, [] => rMatchHere ts []
  | .anyStar :: ts, d :: ds => rMatchHere ts (d :: ds) || rMatchHere (.anyStar :: ts) ds
termination_by ts s => (s.length, ts.length)

/-- `.test` of a wildcard pattern's regex: match starting anywhere. -/
def rTest (ts : List RTok) : List Char → Bool
  | [] => rMatchHere ts []
  | c :: rest => rMatchHere ts (c :: rest) || rTest ts rest

/-- One compiled chokidar ignore pattern (`src/index.js` lines 256-284). -/
inductive CompiledPattern where
  | brokenGit
  | dirSegment (name : String)
  | wildcard (pattern : String)
  | exact (name : String)
deriving DecidableEq

/-- Test a compiled pattern against a normalized path's characters. -/
def matchCompiled (p : CompiledPattern) (s : List Char) : Bool :=
  match p with
  | .brokenGit => brokenGitTest s
  | .dirSegment nm => dirSegTest nm.data s
  | .wildcard pat => rTest (wildTokens pat) s
  | .exact nm => exactTest nm.data s

/-- Does the pattern contain a `*`? (`pattern.includes('*')`). -/
def containsStar (p : String) : Bool := p.data.any (· == '*')

/-- Classify one configured ignore pattern the way
`buildChokidarIgnorePatterns` does: trailing slash → directory regex,
`*` present → wildcard regex, otherwise exact-name regex. -/
def compilePattern (p : String) : CompiledPattern :=
  if strEndsWith p "/" then .dirSegment (p.dropRight 1)
  else if containsStar p then .wildcard p
  else .exact p

/-- `filePath.replace(/\\/g, '/')` (`src/index.js` line 289). -/
def normalizeSlashes (s : String) : String :=
  ⟨s.data.map fun c => if c == '\\' then '/' else c⟩

/-- The per-project `.gitignore` filter lookup of the chokidar predicate
(`src/index.js` lines 299-314) on resolved absolute path strings: the
relative path handed to the filter when the file lies inside the project. -/
def gitignoreApplies (projectPath filePath : String) : Option String :=
  if strStartsWith filePath (projectPath ++ "/") || filePath == projectPath then
    let relativePath :=
      if filePath == projectPath then ""
      else filePath.drop (projectPath.length + 1)
    if relativePath == "" || strStartsWith relativePath ".." then none
    else some relativePath
  else none

/-- The predicate returned by `buildChokidarIgnorePatterns`
(`src/index.js` lines 256-318).  `cachedIgnorePatterns = none` models the
JavaScript `null` (fall back to the built-in list); note that an empty
loaded pattern list is truthy in JavaScript and is used as-is. -/
def buildChokidarIgnorePatterns (cachedIgnorePatterns : Option (List String))
    (gitignoreFilters : List (String × (String → Bool)))
    (filePath : String) : Bool :=
  let ignorePatterns :=
    match cachedIgnorePatterns with
    | some ps => ps
    | none => BUILTIN_IGNORE_PATTERNS
  let patterns : List CompiledPattern :=
    .brokenGit :: ignorePatterns.map compilePattern
  let normalizedPath := normalizeSlashes filePath
  patterns.any (fun p => matchCompiled p normalizedPath.data) ||
    gitignoreFilters.any fun f =>
      match gitignoreApplies f.1 filePath with
      | some rel => f.2 rel
      | none => false

/-- `pattern.replace(/\/+$/, '')`: strip all trailing slashes. -/
def stripTrailingSlashes (s : String) : String :=
  ⟨(s.data.reverse.dropWhile (· == '/')).reverse⟩

/-- `updateIgnoreDirectorySegments` (`src/index.js` lines 563-574): the set
of directory segments to ignore, always seeded with `.git`. -/
def updateIgnoreDirectorySegments (patterns : List String) : List String :=
  patterns.foldl
    (fun segs p =>
      if strEndsWith p "/" then
        let segment := stripTrailingSlashes p
        if segment == "" then segs else setAdd segs segment
      else segs)
    [".git"]

/-- `shouldIgnorePath` (`src/index.js` lines 466-481; it is the watcher
ignore predicate in the `src/unnamed/part_000` variant): ignore a path under
a configured root when any segment of its root-relative path is an ignored
directory segment. -/
def shouldIgnorePath (roots : List PathT) (ignoreDirectorySegments : List String)
    (target : PathT) : Bool :=
  match findRoot roots target with
  | none => false
  | some root =>
    let relative := relativeSegs root target
    if relative.isEmpty then false
    else relative.any fun seg => ignoreDirectorySegments.contains seg

/-! ## Remote repository ensurer and the full sync pipeline -/

/-- `ensureGiteaRepository` (`src/index.js` lines 605-621): query the repo;
a 404 triggers creation as a private repository with default branch `main`
and no auto-init; the creation call's own failure propagates; any other
query failure is rethrown wrapped. -/
def ensureGiteaRepository (w : World) (owner repoName : String) :
    List ApiCall × Except String Unit :=
  match w.getRepo with
  | .ok => ([.getRepo owner repoName], .ok ())
  | .notFound =>
    let payload : RepoPayload := ⟨repoName, true, "main", false⟩
    match w.createRepo with
    | .ok _ => ([.getRepo owner repoName, .createRepo payload], .ok ())
    | .error e => ([.getRepo owner repoName, .createRepo payload], .error e)
  | .otherError msg =>
    ([.getRepo owner repoName],
      .error ("Failed to ensure repository on Gitea: " ++ msg))

/-- `ensureLocalGitRepo` (`src/index.js` lines 623-634): returns whether a
fresh repository was initialised. -/
def ensureLocalGitRepo (w : World) (k : Nat) :
    Nat × List Cmd × Except String Bool :=
  if w.gitDirExists then (k, [], .ok false)
  else
    match runGitCall w k ["init", "-b", "main"] with
    | .ok _ => (k + 1, [["init", "-b", "main"]], .ok true)
    | .error e => (k + 1, [["init", "-b", "main"]], .error e)

/-- `ensureDefaultGitignore` (`src/index.js` lines 636-646): a filesystem
step, no git commands; the write failure propagates. -/
def ensureDefaultGitignore (w : World) : Except String Unit :=
  if w.gitignoreExists then .ok () else w.writeGitignoreOk

/-- `removeNestedGitDirs` (`src/index.js` lines 648-669): `find` output and
removal are filesystem effects; a removal failure propagates. -/
def removeNestedGitDirs (w : World) : Except String Unit :=
  if w.nestedGitDirs.isEmpty then .ok () else w.rmNestedOk

/-- `ensureGitConfig` (`src/index.js` lines 683-693): read the key; when the
read fails or reports empty output, set it. -/
def ensureGitConfig (w : World) (k : Nat) (key value : String) :
    Nat × List Cmd × Except String Unit :=
  let getArgs : Cmd := ["config", "--get", key]
  let setArgs : Cmd := ["config", key, value]
  let doSet : Except String Unit :=
    match runGitCall w (k + 1) setArgs with
    | .ok _ => .ok ()
    | .error e => .error e
  match runGitCall w k getArgs with
  | .ok o =>
    if o.stdout == "" then (k + 2, [getArgs, setArgs], doSet)
    else (k + 1, [getArgs], .ok ())
  | .error _ => (k + 2, [getArgs, setArgs], doSet)

/-- Sequencing of pipeline steps: run `next` only when `prev` succeeded,
concatenating issued commands. -/
def andThen (prev : Nat × List Cmd × Except String Unit)
    (next : Nat → Nat × List Cmd × Except String Unit) :
    Nat × List Cmd × Except String Unit :=
  match prev with
  | (k, t, .ok _) =>
    let r := next k
    (r.1, t ++ r.2.1, r.2.2)
  | e => e

/-- `ensureGitIdentity` (`src/index.js` lines 671-681): five
`ensureGitConfig` steps in order. -/
def ensureGitIdentity (w : World) (k : Nat) (authorName authorEmail : String) :
    Nat × List Cmd × Except String Unit :=
  let r0 := ensureGitConfig w k "user.name" authorName
  let r1 := andThen r0 fun j => ensureGitConfig w j "user.email" authorEmail
  let r2 := andThen r1 fun j => ensureGitConfig w j "commit.gpgsign" "false"
  let r3 := andThen r2 fun j => ensureGitConfig w j "http.postBuffer" "524288000"
  andThen r3 fun j => ensureGitConfig w j "http.maxRequestBuffer" "524288000"

/-- `ensureRemote` (`src/index.js` lines 695-707).  The repository name is
assumed URL-safe, so `encodeURIComponent` is the identity here. -/
def ensureRemote (w : World) (k : Nat) (baseUrl owner repoName : String) :
    Nat × List Cmd × Except String Unit :=
  let remoteUrl := baseUrl ++ "/" ++ owner ++ "/" ++ repoName ++ ".git"
  let getArgs : Cmd := ["remote", "get-url", REMOTE_NAME]
  match runGitCall w k getArgs with
  | .ok o =>
    if o.stdout == remoteUrl then (k + 1, [getArgs], .ok ())
    else
      let setArgs : Cmd := ["remote", "set-url", REMOTE_NAME, remoteUrl]
      match runGitCall w (k + 1) setArgs with
      | .ok _ => (k + 2, [getArgs, setArgs], .ok ())
      | .error e => (k + 2, [getArgs, setArgs], .error e)
  | .error _ =>
    let addArgs : Cmd := ["remote", "add", REMOTE_NAME, remoteUrl]
    match runGitCall w (k + 1) addArgs with
    | .ok _ => (k + 2, [getArgs, addArgs], .ok ())
    | .error e => (k + 2, [getArgs, addArgs], .error e)

/-- `ensureFullHistory` (`src/index.js` lines 709-724): check for a shallow
clone and try to unshallow; every failure is swallowed. -/
def ensureFullHistory (w : World) (k : Nat) : Nat × List Cmd :=
  let revArgs : Cmd := ["rev-parse", "--is-shallow-repository"]
  match runGitCall w k revArgs with
  | .ok o =>
    if o.stdout == "true" then (k + 2, [revArgs, ["fetch", "--unshallow"]])
    else (k + 1, [revArgs])
  | .error _ => (k + 1, [revArgs])

/-- `stageAll` (`src/index.js` lines 726-728). -/
def stageAll (w : World) (k : Nat) : Nat × List Cmd × Except String Unit :=
  match runGitCall w k ["add", "--all"] with
  | .ok _ => (k + 1, [["add", "--all"]], .ok ())
  | .error e => (k + 1, [["add", "--all"]], .error e)

/-- `hasPendingChanges` (`src/index.js` lines 730-737). -/
def hasPendingChanges (w : World) (k : Nat) :
    Nat × List Cmd × Except String Bool :=
  let args : Cmd := ["status", "--porcelain"]
  match runGitCall w k args with
  | .ok o => (k + 1, [args], .ok (!(o.stdout == "")))
  | .error e => (k + 1, [args], .error ("Unable to check git status: " ++ e))

/-- `commitChanges` (`src/index.js` lines 739-749): a "nothing to commit"
failure counts as success. -/
def commitChanges (w : World) (k : Nat) (now : String) :
    Nat × List Cmd × Except String Unit :=
  let args : Cmd := ["commit", "-m", "Auto backup " ++ now]
  match runGitCall w k args with
  | .ok _ => (k + 1, [args], .ok ())
  | .error e =>
    if containsSub e "nothing to commit" then (k + 1, [args], .ok ())
    else (k + 1, [args], .error ("Failed to commit changes: " ++ e))

/-- The git-facing part of `syncProject` (`src/index.js` lines 580-603),
after the remote repository has been ensured: local init, optional default
`.gitignore` seeding, nested-metadata flattening, identity, remote alias,
history deepening, stage-all, conditional commit, and the publish step with
maintenance enabled. -/
def syncProjectGit (w : World) (baseUrl owner repoName authorName authorEmail : String)
    (pruneAgeDays : Nat) (now : String) : Nat × List Cmd × Except String Unit :=
  match ensureLocalGitRepo w 0 with
  | (k1, t1, .error e) => (k1, t1, .error e)
  | (k1, t1, .ok inited) =>
    match (if inited then ensureDefaultGitignore w else .ok ()) with
    | .error e => (k1, t1, .error e)
    | .ok _ =>
      match removeNestedGitDirs w with
      | .error e => (k1, t1, .error e)
      | .ok _ =>
        let r := andThen (k1, t1, .ok ()) fun j =>
          ensureGitIdentity w j authorName authorEmail
        let r := andThen r fun j => ensureRemote w j baseUrl owner repoName
        let r := andThen r fun j =>
          let h := ensureFullHistory w j
          (h.1, h.2, .ok ())
        let r := andThen r fun j => stageAll w j
        match r with
        | (k4, t4, .error e) => (k4, t4, .error e)
        | (k4, t4, .ok _) =>
          let rp := hasPendingChanges w k4
          match rp.2.2 with
          | .error e => (rp.1, t4 ++ rp.2.1, .error e)
          | .ok changesDetected =>
            let rc :=
              if changesDetected then commitChanges w rp.1 now
              else (rp.1, ([] : List Cmd), Except.ok ())
            match rc with
            | (k5, t5, .error e) => (k5, t4 ++ rp.2.1 ++ t5, .error e)
            | (k5, t5, .ok _) =>
              let rpu := pushChanges w k5 pruneAgeDays true
              (rpu.1, t4 ++ rp.2.1 ++ t5 ++ rpu.2.1, rpu.2.2)

/-- `syncProject` (`src/index.js` lines 580-603): ensure the remote
repository first (its failure aborts the project's sync before any git
command), then run the git pipeline. -/
def syncProject (w : World) (baseUrl owner repoName authorName authorEmail : String)
    (pruneAgeDays : Nat) (now : String) :
    List ApiCall × Nat × List Cmd × Except String Unit :=
  let api := ensureGiteaRepository w owner repoName
  match api.2 with
  | .error e => (api.1, 0, [], .error e)
  | .ok _ =>
    (api.1, syncProjectGit w baseUrl owner repoName authorName authorEmail pruneAgeDays now)

/-- The per-root loop body of `runFullSync` (`src/index.js` lines 210-219):
each discovered project is synced with its error caught and logged, so every
project is attempted.  `ws` supplies each project's environment; the result
pairs each project with the error its sync surfaced, if any. -/
def runFullSyncSweep (ws : PathT → World)
    (baseUrl owner authorName authorEmail : String) (pruneAgeDays : Nat)
    (now : String) : List PathT → List (PathT × Option String)
  | [] => []
  | p :: ps =>
    let name := p.getLastD ""
    let r := syncProject (ws p) baseUrl owner name authorName authorEmail
      pruneAgeDays now
    (p, match r.2.2.2 with | .ok _ => none | .error e => some e) ::
      runFullSyncSweep ws baseUrl owner authorName authorEmail pruneAgeDays now ps

/-! ## Statement helpers and concrete environments -/

/-- Is a command one of the history-maintenance commands issued by
`pruneRepository`? -/
def isMaintCmd (c : Cmd) : Bool :=
  c.head? == some "reflog" || c.head? == some "gc"

/-- Did the oracle call succeed? -/
def isOkE (r : Except CmdErr GitOutput) : Bool :=
  match r with
  | .ok _ => true
  | .error _ => false

/-- The `rev-parse` command issued by `currentBranch`. -/
def revHeadArgs : Cmd := ["rev-parse", "--abbrev-ref", "HEAD"]

/-- The upstream query issued by `branchHasUpstream` for a branch. -/
def upArgsOf (branch : String) : Cmd :=
  ["rev-parse", "--abbrev-ref", "--symbolic-full-name", branch ++ "@{u}"]

/-- The push arguments chosen by `pushChanges` (`src/index.js` lines
762-764) from the upstream state. -/
def pushArgsOf (hasUpstream : Bool) (branch : String) : Cmd :=
  if hasUpstream then ["push", REMOTE_NAME, branch]
  else ["push", "--set-upstream", REMOTE_NAME, branch]

/-- An environment in which every external call succeeds with empty
output. -/
def okWorld : World :=
  { git := fun _ _ => .ok ⟨"", ""⟩
    getRepo := .ok
    createRepo := .ok ()
    gitDirExists := true
    gitignoreExists := true
    writeGitignoreOk := .ok ()
    nestedGitDirs := []
    rmNestedOk := .ok () }

/-- An environment whose direct push (4th git call) is rejected with a
non-fast-forward message and whose rebased retry (6th git call) is rejected
again; everything else succeeds. -/
def conflictWorld : World :=
  { okWorld with
    git := fun k _ =>
      if k = 3 then .error ⟨1, "failed to push some refs; non-fast-forward"⟩
      else if k = 5 then .error ⟨1, "still behind; fetch first"⟩
      else .ok ⟨"", ""⟩ }

/-- An environment for a full project sync in which the working tree has
pending changes, the index has staged changes, every git config key is
already set, the remote alias already points at `http://g/o/demo.git`, and
everything else succeeds. -/
def happyWorld : World :=
  { okWorld with
    git := fun _ args =>
      if args = ["status", "--porcelain"] then .ok ⟨"M file", ""⟩
      else if args = ["diff", "--cached", "--quiet"] then .error ⟨1, ""⟩
      else if args.take 2 = ["config", "--get"] then .ok ⟨"v", ""⟩
      else if args = ["remote", "get-url", REMOTE_NAME] then
        .ok ⟨"http://g/o/demo.git", ""⟩
      else .ok ⟨"", ""⟩ }

/-- An environment whose repository query reports 404 (absent). -/
def notFoundWorld : World := { okWorld with getRepo := .notFound }

/-- An environment whose repository query fails with a non-404 error. -/
def apiErrWorld : World := { okWorld with getRepo := .otherError "boom" }

/-- An environment whose direct push (4th git call) fails with a message
that does not indicate a non-fast-forward condition. -/
def permErrWorld : World :=
  { okWorld with
    git := fun k _ =>
      if k = 3 then .error ⟨128, "remote: permission denied"⟩
      else .ok ⟨"", ""⟩ }

/-- The force-push arguments of the `src/unnamed/part_000` variant
(lines 643-645). -/
def forceArgsV0 (hasUpstream : Bool) (branch : String) : Cmd :=
  if hasUpstream then ["push", "--force", REMOTE_NAME, branch]
  else ["push", "--set-upstream", "--force", REMOTE_NAME, branch]

/-- The upstream query of the `src/unnamed/part_001` variant. -/
def upArgsV1 (branch : String) : Cmd :=
  ["rev-parse", "--abbrev-ref", branch ++ "@{u}"]

/-- An environment for the `part_000` variant: the push (3rd git call) is
rejected with a message matching its fallback pattern, and the force push
(4th call) succeeds. -/
def v0World : World :=
  { okWorld with
    git := fun k _ =>
      if k = 2 then .error ⟨1, "error: failed to push some refs"⟩
      else .ok ⟨"", ""⟩ }

/-- An environment for the `part_001` variant: the push (3rd git call) is
rejected with a message matching its fallback pattern, and the force push
(4th call) succeeds. -/
def v1World : World :=
  { okWorld with
    git := fun k _ =>
      if k = 2 then .error ⟨1, "! [rejected] main -> main"⟩
      else .ok ⟨"", ""⟩ }

/-! ## Helper lemmas -/

theorem currentBranch_eq (w : World) (k : Nat) :
    currentBranch w k = (k + 1, [revHeadArgs], branchOf (w.git k revHeadArgs)) := by
  unfold currentBranch branchOf runGitCall revHeadArgs
  cases h : w.git k ["rev-parse", "--abbrev-ref", "HEAD"] <;> simp [h]

theorem branchHasUpstream_eq (w : World) (k : Nat) (branch : String) :
    branchHasUpstream w k branch =
      (k + 1, [upArgsOf branch], isOkE (w.git k (upArgsOf branch))) := by
  unfold branchHasUpstream isOkE runGitCall upArgsOf
  cases h : w.git k ["rev-parse", "--abbrev-ref", "--symbolic-full-name",
    branch ++ "@{u}"] <;> simp [h]

theorem getCurrentBranchV1_eq (w : World) (k : Nat) :
    getCurrentBranchV1 w k = (k + 1, [revHeadArgs], branchOf (w.git k revHeadArgs)) := by
  unfold getCurrentBranchV1 branchOf rawGitCall revHeadArgs
  cases h : w.git k ["rev-parse", "--abbrev-ref", "HEAD"] <;> simp [h]

theorem checkUpstreamV1_eq (w : World) (k : Nat) (branch : String) :
    checkUpstreamV1 w k branch =
      (k + 1, [upArgsV1 branch], isOkE (w.git k (upArgsV1 branch))) := by
  unfold checkUpstreamV1 isOkE rawGitCall upArgsV1
  cases h : w.git k ["rev-parse", "--abbrev-ref", branch ++ "@{u}"] <;> simp [h]

theorem pruneRepository_zero (w : World) (k : Nat) :
    pruneRepository w k 0 = (k, []) := by
  unfold pruneRepository
  simp

/-! ## Claim C10: quick-sync is a no-op outside the project -/

/-- **C10**: whenever the event path is not strictly inside the project
directory (its path relative to the project root is empty or escapes with
`..`), `syncSinglePath` returns immediately: it issues no git command at
all, leaves the command counter untouched and raises no error. -/
theorem syncSinglePath_outside_is_noop (w : World) (k0 : Nat)
    (projectPath absolutePath : PathT) (event : String) (pruneAgeDays : Nat)
    (now : String)
    (h : (relativeSegs projectPath absolutePath).isEmpty = true ∨
      relStartsDotDot (relativeSegs projectPath absolutePath) = true) :
    syncSinglePath w k0 projectPath absolutePath event pruneAgeDays now =
      (k0, [], .ok ()) := by
  unfold syncSinglePath
  rcases h with h | h <;> simp [h]

/-- Witness for `syncSinglePath_outside_is_noop` at the sibling path
`/a/c` of project `/a/b`. -/
theorem syncSinglePath_outside_is_noop_witness :
    syncSinglePath okWorld 0 ["a", "b"] ["a", "c"] "add" 0 "T" =
      (0, [], .ok ()) :=
  syncSinglePath_outside_is_noop okWorld 0 ["a", "b"] ["a", "c"] "add" 0 "T"
    (Or.inr (by decide))

/-! ## Claim C2: non-fast-forward recovery of the main push protocol -/

/-- **C2**: when the direct push fails with a message matching the
non-fast-forward pattern, `pushChanges` runs `pull --rebase` and then
retries the very same push arguments (including `--set-upstream` on a first
push), and its outcome is the retry's outcome; when the failure message
does not match the pattern, the error is propagated with no retry (the
push command appears exactly once in the issued commands). -/
theorem pushChanges_conflict_protocol :
    (∀ (w : World) (d : Nat) (branch : String) (hasUp : Bool) (e : CmdErr)
        (r5 : Except CmdErr GitOutput),
      branchOf (w.git 0 revHeadArgs) = branch →
      isOkE (w.git 1 (upArgsOf branch)) = hasUp →
      isOkE (w.git 2 ["fetch", "--all"]) = true →
      w.git 3 (pushArgsOf hasUp branch) = .error e →
      nonFastForwardMsg (wrapMsg (pushArgsOf hasUp branch) e.msg) = true →
      isOkE (w.git 4 ["pull", "--rebase", REMOTE_NAME, branch]) = true →
      w.git 5 (pushArgsOf hasUp branch) = r5 →
      pushChanges w 0 d false =
        (6,
         [revHeadArgs, upArgsOf branch, ["fetch", "--all"],
          pushArgsOf hasUp branch, ["pull", "--rebase", REMOTE_NAME, branch],
          pushArgsOf hasUp branch],
         match r5 with
         | .ok _ => .ok ()
         | .error e3 => .error (wrapMsg (pushArgsOf hasUp branch) e3.msg))) ∧
    (∀ (w : World) (d : Nat) (pa : Bool) (branch : String) (hasUp : Bool)
        (e : CmdErr),
      branchOf (w.git 0 revHeadArgs) = branch →
      isOkE (w.git 1 (upArgsOf branch)) = hasUp →
      isOkE (w.git 2 ["fetch", "--all"]) = true →
      w.git 3 (pushArgsOf hasUp branch) = .error e →
      nonFastForwardMsg (wrapMsg (pushArgsOf hasUp branch) e.msg) = false →
      pushChanges w 0 d pa =
        (4,
         [revHeadArgs, upArgsOf branch, ["fetch", "--all"],
          pushArgsOf hasUp branch],
         .error (wrapMsg (pushArgsOf hasUp branch) e.msg))) := by
  constructor
  · intro w d branch hasUp e r5 hb hu hf hp hm hr h5
    obtain ⟨o2, hf2⟩ : ∃ o, w.git 2 ["fetch", "--all"] = .ok o := by
      revert hf
      cases w.git 2 ["fetch", "--all"] <;> simp [isOkE]
    obtain ⟨o4, hr4⟩ : ∃ o, w.git 4 ["pull", "--rebase", REMOTE_NAME, branch] = .ok o := by
      revert hr
      cases w.git 4 ["pull", "--rebase", REMOTE_NAME, branch] <;> simp [isOkE]
    simp only [pushChanges, currentBranch_eq, branchHasUpstream_eq, hb, hu]
    cases hasUp <;> cases r5 <;>
      simp only [pushArgsOf, REMOTE_NAME, if_true, if_false, Bool.false_eq_true,
        reduceIte] at h5 hp hm <;>
      simp_all [runGitCall, isOkE, REMOTE_NAME, pushArgsOf]
  · intro w d pa branch hasUp e hb hu hf hp hm
    obtain ⟨o2, hf2⟩ : ∃ o, w.git 2 ["fetch", "--all"] = .ok o := by
      revert hf
      cases w.git 2 ["fetch", "--all"] <;> simp [isOkE]
    simp only [pushChanges, currentBranch_eq, branchHasUpstream_eq, hb, hu]
    cases hasUp <;>
      simp only [pushArgsOf, REMOTE_NAME, if_true, if_false, Bool.false_eq_true,
        reduceIte] at hp hm <;>
      simp_all [runGitCall, isOkE, REMOTE_NAME, pushArgsOf]

/-- Witness for `pushChanges_conflict_protocol`: in `conflictWorld` the
rejected push is retried after a rebase with identical arguments, and in
`permErrWorld` the non-matching failure is surfaced with a single push. -/
theorem pushChanges_conflict_protocol_witness :
    pushChanges conflictWorld 0 0 false =
      (6,
       [revHeadArgs, upArgsOf "main", ["fetch", "--all"], pushArgsOf true "main",
        ["pull", "--rebase", REMOTE_NAME, "main"], pushArgsOf true "main"],
       .error (wrapMsg (pushArgsOf true "main") "still behind; fetch first")) ∧
    pushChanges permErrWorld 0 0 true =
      (4,
       [revHeadArgs, upArgsOf "main", ["fetch", "--all"], pushArgsOf true "main"],
       .error (wrapMsg (pushArgsOf true "main") "remote: permission denied")) :=
  ⟨pushChanges_conflict_protocol.1 conflictWorld 0 "main" true
      ⟨1, "failed to push some refs; non-fast-forward"⟩
      (.error ⟨1, "still behind; fetch first"⟩)
      (by decide) (by decide) (by decide) rfl (by decide) (by decide) rfl,
    pushChanges_conflict_protocol.2 permErrWorld 0 true "main" true
      ⟨128, "remote: permission denied"⟩
      (by decide) (by decide) (by decide) rfl (by decide)⟩

/-! ## Claim C1: force-push fallback (corrected) -/

/-- **C1** counterexample: in the main variant (`src/index.js`), when the
push is rejected with a non-fast-forward message and the rebase-then-push
retry fails as well, `pushChanges` surfaces the retry's rejection to the
caller and issues no force push at all — contradicting the claim that the
push operation then falls back to a force push. -/
theorem pushChanges_no_force_fallback_cex :
    (pushChanges conflictWorld 0 0 false).2.2 =
        .error "git push gitea main: still behind; fetch first" ∧
      ∀ c ∈ (pushChanges conflictWorld 0 0 false).2.1, "--force" ∉ c :=
  ⟨rfl, by decide⟩

/-- **C1** (amended): in the main variant, when the rebase-then-push retry
fails its error is surfaced and the exact command trace contains no force
push; the force-push fallback exists only in the local-authoritative
variants: in `src/unnamed/part_000`'s `pushChanges` and in
`src/unnamed/part_001`'s `push`, a push failure whose message matches the
variant's rejection pattern triggers exactly one immediate force push (no
rebase attempt, no further retry), whose outcome becomes the operation's
outcome. -/
theorem pushChanges_force_fallback_amended :
    (∀ (w : World) (d : Nat) (pa : Bool) (branch : String) (hasUp : Bool)
        (e e3 : CmdErr),
      branchOf (w.git 0 revHeadArgs) = branch →
      isOkE (w.git 1 (upArgsOf branch)) = hasUp →
      isOkE (w.git 2 ["fetch", "--all"]) = true →
      w.git 3 (pushArgsOf hasUp branch) = .error e →
      nonFastForwardMsg (wrapMsg (pushArgsOf hasUp branch) e.msg) = true →
      isOkE (w.git 4 ["pull", "--rebase", REMOTE_NAME, branch]) = true →
      w.git 5 (pushArgsOf hasUp branch) = .error e3 →
      pushChanges w 0 d pa =
        (6,
         [revHeadArgs, upArgsOf branch, ["fetch", "--all"],
          pushArgsOf hasUp branch, ["pull", "--rebase", REMOTE_NAME, branch],
          pushArgsOf hasUp branch],
         .error (wrapMsg (pushArgsOf hasUp branch) e3.msg))) ∧
    (∀ (w : World) (branch : String) (hasUp : Bool) (e : CmdErr)
        (rf : Except CmdErr GitOutput),
      branchOf (w.git 0 revHeadArgs) = branch →
      isOkE (w.git 1 (upArgsOf branch)) = hasUp →
      w.git 2 (pushArgsOf hasUp branch) = .error e →
      matchV0 (wrapMsg (pushArgsOf hasUp branch) e.msg) = true →
      w.git 3 (forceArgsV0 hasUp branch) = rf →
      pushChangesV0 w 0 =
        (4,
         [revHeadArgs, upArgsOf branch, pushArgsOf hasUp branch,
          forceArgsV0 hasUp branch],
         match rf with
         | .ok _ => .ok ()
         | .error e2 => .error (wrapMsg (forceArgsV0 hasUp branch) e2.msg))) ∧
    (∀ (w : World) (branch : String) (hasUp : Bool) (e : CmdErr)
        (rf : Except CmdErr GitOutput),
      branchOf (w.git 0 revHeadArgs) = branch →
      isOkE (w.git 1 (upArgsV1 branch)) = hasUp →
      w.git 2 (pushArgsOf hasUp branch) = .error e →
      matchV1 e.msg = true →
      w.git 3 ["push", "--force", REMOTE_NAME, branch] = rf →
      pushV1 w 0 =
        (4,
         [revHeadArgs, upArgsV1 branch, pushArgsOf hasUp branch,
          ["push", "--force", REMOTE_NAME, branch]],
         match rf with
         | .ok _ => .ok ()
         | .error e2 => .error e2.msg)) := by
  refine ⟨?_, ?_, ?_⟩
  · intro w d pa branch hasUp e e3 hb hu hf hp hm hr h5
    obtain ⟨o2, hf2⟩ : ∃ o, w.git 2 ["fetch", "--all"] = .ok o := by
      revert hf
      cases w.git 2 ["fetch", "--all"] <;> simp [isOkE]
    obtain ⟨o4, hr4⟩ : ∃ o, w.git 4 ["pull", "--rebase", REMOTE_NAME, branch] = .ok o := by
      revert hr
      cases w.git 4 ["pull", "--rebase", REMOTE_NAME, branch] <;> simp [isOkE]
    simp only [pushChanges, currentBranch_eq, branchHasUpstream_eq, hb, hu]
    cases hasUp <;>
      simp only [pushArgsOf, REMOTE_NAME, if_true, if_false, Bool.false_eq_true,
        reduceIte] at h5 hp hm <;>
      simp_all [runGitCall, isOkE, REMOTE_NAME, pushArgsOf]
  · intro w branch hasUp e rf hb hu hp hm hfo
    simp only [pushChangesV0, currentBranch_eq, branchHasUpstream_eq, hb, hu]
    cases hasUp <;> cases rf <;>
      simp only [pushArgsOf, forceArgsV0, REMOTE_NAME, if_true, if_false,
        Bool.false_eq_true, reduceIte] at hp hm hfo <;>
      simp_all [runGitCall, isOkE, REMOTE_NAME, pushArgsOf, forceArgsV0]
  · intro w branch hasUp e rf hb hu hp hm hfo
    simp only [pushV1, getCurrentBranchV1_eq, checkUpstreamV1_eq, hb, hu]
    cases hasUp <;> cases rf <;>
      simp only [pushArgsOf, REMOTE_NAME, if_true, if_false, Bool.false_eq_true,
        reduceIte] at hp hm hfo <;>
      simp_all [rawGitCall, isOkE, REMOTE_NAME, pushArgsOf]

/-- Witness for `pushChanges_force_fallback_amended`: the main variant
surfaces the failed retry in `conflictWorld`; `part_000` force pushes in
`v0World`; `part_001` force pushes in `v1World`. -/
theorem pushChanges_force_fallback_amended_witness :
    pushChanges conflictWorld 0 0 false =
      (6,
       [revHeadArgs, upArgsOf "main", ["fetch", "--all"], pushArgsOf true "main",
        ["pull", "--rebase", REMOTE_NAME, "main"], pushArgsOf true "main"],
       .error (wrapMsg (pushArgsOf true "main") "still behind; fetch first")) ∧
    pushChangesV0 v0World 0 =
      (4,
       [revHeadArgs, upArgsOf "main", pushArgsOf true "main",
        forceArgsV0 true "main"],
       .ok ()) ∧
    pushV1 v1World 0 =
      (4,
       [revHeadArgs, upArgsV1 "main", pushArgsOf true "main",
        ["push", "--force", REMOTE_NAME, "main"]],
       .ok ()) :=
  ⟨pushChanges_force_fallback_amended.1 conflictWorld 0 false "main" true
      ⟨1, "failed to push some refs; non-fast-forward"⟩
      ⟨1, "still behind; fetch first"⟩
      (by decide) (by decide) (by decide) rfl (by decide) (by decide) rfl,
    pushChanges_force_fallback_amended.2.1 v0World "main" true
      ⟨1, "error: failed to push some refs"⟩ (.ok ⟨"", ""⟩)
      (by decide) (by decide) rfl (by decide) rfl,
    pushChanges_force_fallback_amended.2.2 v1World "main" true
      ⟨1, "! [rejected] main -> main"⟩ (.ok ⟨"", ""⟩)
      (by decide) (by decide) rfl (by decide) rfl⟩

/-! ## Pending-set and drain-loop lemmas -/

theorem mem_setAdd_of_mem (l : List String) (x y : String) (h : x ∈ l) :
    x ∈ setAdd l y := by
  unfold setAdd
  split <;> simp [h]

theorem self_mem_setAdd (l : List String) (y : String) : y ∈ setAdd l y := by
  unfold setAdd
  split <;> simp_all

theorem mem_foldl_setAdd_left (batch l : List String) (x : String) (h : x ∈ l) :
    x ∈ batch.foldl setAdd l := by
  induction batch generalizing l with
  | nil => exact h
  | cons b bs ih => exact ih _ (mem_setAdd_of_mem _ _ _ h)

theorem mem_foldl_setAdd_right (batch l : List String) (x : String)
    (h : x ∈ batch) : x ∈ batch.foldl setAdd l := by
  induction batch generalizing l with
  | nil => cases h
  | cons b bs ih =>
    simp only [List.foldl_cons]
    rcases List.mem_cons.mp h with rfl | hx
    · exact mem_foldl_setAdd_left _ _ _ (self_mem_setAdd _ _)
    · exact ih _ hx

theorem drainAux_nil_arrivals (l : List String) : drainAux l [] = l := by
  induction l with
  | nil => simp [drainAux]
  | cons p rest ih => simp [drainAux, ih]

theorem mem_drainAux_of_mem_pending (pending : List String)
    (arrivals : List (List String)) (x : String) (h : x ∈ pending) :
    x ∈ drainAux pending arrivals := by
  induction pending, arrivals using drainAux.induct with
  | case1 arrivals => cases h
  | case2 p rest arrivals ih =>
    simp only [drainAux]
    rcases List.mem_cons.mp h with rfl | hx
    · exact List.mem_cons_self _ _
    · exact List.mem_cons_of_mem _ (ih (mem_foldl_setAdd_left _ _ _ hx))

theorem mem_drainAux_of_arrival (pending : List String)
    (arrivals : List (List String)) (i : Nat) (x : String)
    (hi : i < (drainAux pending arrivals).length)
    (hx : x ∈ arrivals.getD i []) :
    x ∈ drainAux pending arrivals := by
  induction pending, arrivals using drainAux.induct generalizing i with
  | case1 arrivals => simp [drainAux] at hi
  | case2 p rest arrivals ih =>
    simp only [drainAux] at hi ⊢
    cases i with
    | zero =>
      apply List.mem_cons_of_mem
      apply mem_drainAux_of_mem_pending
      apply mem_foldl_setAdd_right
      cases arrivals with
      | nil => simp at hx
      | cons b bs => simpa using hx
    | succ j =>
      apply List.mem_cons_of_mem
      apply ih j
      · simpa using Nat.lt_of_succ_lt_succ (by simpa using hi)
      · cases arrivals with
        | nil => simp at hx
        | cons b bs => simpa using hx

theorem scheduleProject_iterate (s : SchedState) (p : String) (n : Nat)
    (hn : 1 ≤ n) (hp : p ∉ s.pendingProjects) :
    (fun st => scheduleProject st p)^[n] s =
      ⟨s.pendingProjects ++ [p], s.flushTimerGen + n⟩ := by
  induction n with
  | zero => cases hn
  | succ m ih =>
    cases Nat.eq_or_lt_of_le hn with
    | inl h1 =>
      have : m = 0 := by omega
      subst this
      simp [Function.iterate_one, scheduleProject, setAdd, hp]
    | inr h1 =>
      have hm : 1 ≤ m := by omega
      rw [Function.iterate_succ_apply', ih hm]
      simp [scheduleProject, setAdd]
      omega

/-! ## Claim C3: debounce collapsing -/

/-- **C3**: any burst of `n ≥ 1` filesystem events for the same project
within one debounce window leaves the project in the pending set exactly
once — the first event appends it, every further `scheduleProject` call
leaves the set unchanged and only re-arms the one shared timer — and the
drain triggered by the timer hands the project to the sync pipeline exactly
once. -/
theorem scheduleProject_debounce_collapse :
    (∀ (s : SchedState) (p : String) (n : Nat), 1 ≤ n →
      p ∉ s.pendingProjects →
      (fun st => scheduleProject st p)^[n] s =
          ⟨s.pendingProjects ++ [p], s.flushTimerGen + n⟩ ∧
        (s.pendingProjects ++ [p]).count p = 1 ∧
        (drainAux (s.pendingProjects ++ [p]) []).count p = 1) ∧
    (∀ (st : SchedState) (p : String), p ∈ st.pendingProjects →
      (scheduleProject st p).pendingProjects = st.pendingProjects ∧
        (scheduleProject st p).flushTimerGen = st.flushTimerGen + 1) := by
  constructor
  · intro s p n hn hp
    refine ⟨scheduleProject_iterate s p n hn hp, ?_, ?_⟩
    · simp [List.count_append, List.count_eq_zero.mpr hp]
    · rw [drainAux_nil_arrivals]
      simp [List.count_append, List.count_eq_zero.mpr hp]
  · intro st p hp
    simp [scheduleProject, setAdd, hp]

/-- Witness for `scheduleProject_debounce_collapse`: three events for the
same project produce one pending entry and one sync; re-scheduling a pending
project only bumps the timer. -/
theorem scheduleProject_debounce_collapse_witness :
    ((fun st => scheduleProject st "p")^[3] ⟨[], 0⟩ =
          (⟨["p"], 3⟩ : SchedState) ∧
        ((["p"] : List String).count "p" = 1) ∧
        ((drainAux ["p"] []).count "p" = 1)) ∧
      (scheduleProject ⟨["p"], 5⟩ "p").pendingProjects = ["p"] ∧
        (scheduleProject ⟨["p"], 5⟩ "p").flushTimerGen = 6 :=
  ⟨scheduleProject_debounce_collapse.1 ⟨[], 0⟩ "p" 3 (by decide) (by decide),
    scheduleProject_debounce_collapse.2 ⟨["p"], 5⟩ "p" (by decide)⟩

/-! ## Claim C4: single-flight full sync and drain re-entrancy -/

/-- **C4**: a `runFullSync` call made while a sweep is in flight starts no
second sweep and returns the in-flight sweep's promise; `processQueue` is a
no-op while a drain is already running; and a running drain picks up both
every initially pending project and every project marked pending during one
of its sync steps before it exits. -/
theorem fullSync_single_flight :
    (∀ (p fresh : Nat), runFullSyncEnter (some p) fresh = (some p, p)) ∧
    (∀ (pending : List String) (arrivals : List (List String)),
      processQueue true pending arrivals = (true, pending, [])) ∧
    (∀ (pending : List String) (arrivals : List (List String)) (x : String),
      x ∈ pending → x ∈ drainAux pending arrivals) ∧
    (∀ (pending : List String) (arrivals : List (List String)) (i : Nat)
        (x : String), i < (drainAux pending arrivals).length →
      x ∈ arrivals.getD i [] → x ∈ drainAux pending arrivals) := by
  refine ⟨fun p fresh => rfl, fun pending arrivals => rfl, ?_, ?_⟩
  · exact mem_drainAux_of_mem_pending
  · exact mem_drainAux_of_arrival

/-- Witness for `fullSync_single_flight` on concrete states: an in-flight
sweep is reused, a running drain blocks re-entry, and both a pending project
and one arriving mid-drain are synced. -/
theorem fullSync_single_flight_witness :
    runFullSyncEnter (some 5) 7 = (some 5, 5) ∧
      processQueue true ["a"] [["b"]] = (true, ["a"], []) ∧
      "a" ∈ drainAux ["a", "b"] [] ∧
      "c" ∈ drainAux ["a"] [["c"]] :=
  ⟨fullSync_single_flight.1 5 7,
    fullSync_single_flight.2.1 ["a"] [["b"]],
    fullSync_single_flight.2.2.1 ["a", "b"] [] "a" (by decide),
    fullSync_single_flight.2.2.2 ["a"] [["c"]] 0 "c"
      (by simp [drainAux]) (by decide)⟩

/-! ## Claim C5: strict ordering of the quick-sync lane -/

theorem chainRun_total (errs : Nat → Bool) (evs : List ChainEvent)
    (s : ChainState) :
    (chainRun errs evs s).executed.map Prod.fst ++ (chainRun errs evs s).queue =
      s.executed.map Prod.fst ++ s.queue ++ arrivalOrder evs := by
  induction evs generalizing s with
  | nil => simp [chainRun, arrivalOrder]
  | cons ev evs ih =>
    cases ev with
    | enqueue op =>
      rw [show chainRun errs (ChainEvent.enqueue op :: evs) s =
          chainRun errs evs ⟨s.queue ++ [op], s.executed⟩ from rfl]
      rw [ih]
      simp [arrivalOrder, List.filterMap_cons]
    | settle =>
      rw [show chainRun errs (ChainEvent.settle :: evs) s =
          chainRun errs evs (chainSettle errs s) from rfl]
      rw [ih]
      unfold chainSettle
      cases hq : s.queue with
      | nil => simp [arrivalOrder, List.filterMap_cons, hq]
      | cons op rest => simp [arrivalOrder, List.filterMap_cons, hq]

theorem chainRun_exec_indep (errs errs' : Nat → Bool) (evs : List ChainEvent)
    (s t : ChainState) (hq : s.queue = t.queue)
    (he : s.executed.map Prod.fst = t.executed.map Prod.fst) :
    (chainRun errs evs s).queue = (chainRun errs' evs t).queue ∧
      (chainRun errs evs s).executed.map Prod.fst =
        (chainRun errs' evs t).executed.map Prod.fst := by
  induction evs generalizing s t with
  | nil => exact ⟨hq, he⟩
  | cons ev evs ih =>
    cases ev with
    | enqueue op =>
      rw [show chainRun errs (ChainEvent.enqueue op :: evs) s =
          chainRun errs evs ⟨s.queue ++ [op], s.executed⟩ from rfl,
        show chainRun errs' (ChainEvent.enqueue op :: evs) t =
          chainRun errs' evs ⟨t.queue ++ [op], t.executed⟩ from rfl]
      exact ih _ _ (by simp [hq]) he
    | settle =>
      rw [show chainRun errs (ChainEvent.settle :: evs) s =
          chainRun errs evs (chainSettle errs s) from rfl,
        show chainRun errs' (ChainEvent.settle :: evs) t =
          chainRun errs' evs (chainSettle errs' t) from rfl]
      unfold chainSettle
      cases hqs : s.queue with
      | nil =>
        rw [hq] at hqs
        rw [hqs]
        exact ih _ _ (by simp [hq, hqs]) he
      | cons op rest =>
        rw [hq] at hqs
        rw [hqs]
        exact ih _ _ (by simp) (by simp [he])

/-- **C5**: the quick-sync lane executes operations one at a time (each
`settle` step completes the single running operation before the next may
start) and in event arrival order: the executed operations are always
exactly the first `k` enqueued operations in enqueue order; moreover which
operations run does not depend on which of them fail, so an error in one
quick-sync never prevents a later queued quick-sync from running. -/
theorem quickSync_strict_order (errs : Nat → Bool) (evs : List ChainEvent) :
    (chainRun errs evs ⟨[], []⟩).executed.map Prod.fst =
        (arrivalOrder evs).take (chainRun errs evs ⟨[], []⟩).executed.length ∧
      ∀ errs' : Nat → Bool,
        (chainRun errs' evs ⟨[], []⟩).executed.map Prod.fst =
          (chainRun errs evs ⟨[], []⟩).executed.map Prod.fst := by
  constructor
  · have h := chainRun_total errs evs ⟨[], []⟩
    simp only [List.map_nil, List.nil_append] at h
    rw [← h]
    rw [show (chainRun errs evs ⟨[], []⟩).executed.length =
        ((chainRun errs evs ⟨[], []⟩).executed.map Prod.fst).length by
      rw [List.length_map]]
    exact (List.take_left _ _).symm
  · intro errs'
    exact (chainRun_exec_indep errs' errs evs ⟨[], []⟩ ⟨[], []⟩ rfl rfl).2

/-- Witness for `quickSync_strict_order`: two enqueued quick-syncs, the
first of which fails, still run in order. -/
theorem quickSync_strict_order_witness :
    (chainRun (fun op => op == 0) [ChainEvent.enqueue 0, ChainEvent.enqueue 1,
          ChainEvent.settle, ChainEvent.settle] ⟨[], []⟩).executed.map Prod.fst =
        (arrivalOrder [ChainEvent.enqueue 0, ChainEvent.enqueue 1,
            ChainEvent.settle, ChainEvent.settle]).take
          (chainRun (fun op => op == 0) [ChainEvent.enqueue 0, ChainEvent.enqueue 1,
              ChainEvent.settle, ChainEvent.settle] ⟨[], []⟩).executed.length ∧
      ∀ errs' : Nat → Bool,
        (chainRun errs' [ChainEvent.enqueue 0, ChainEvent.enqueue 1,
              ChainEvent.settle, ChainEvent.settle] ⟨[], []⟩).executed.map Prod.fst =
          (chainRun (fun op => op == 0) [ChainEvent.enqueue 0, ChainEvent.enqueue 1,
              ChainEvent.settle, ChainEvent.settle] ⟨[], []⟩).executed.map Prod.fst :=
  quickSync_strict_order (fun op => op == 0)
    [ChainEvent.enqueue 0, ChainEvent.enqueue 1, ChainEvent.settle,
      ChainEvent.settle]

end GiteaAutoSync

namespace GiteaAutoSync

theorem pushChanges_core_no_maint (c : Cmd) (b : String) (pushArgs : Cmd)
    (hpush : pushArgs = ["push", REMOTE_NAME, b] ∨
      pushArgs = ["push", "--set-upstream", REMOTE_NAME, b])
    (hc : c = revHeadArgs ∨ c = upArgsOf b ∨ c = ["fetch", "--all"] ∨
      c = pushArgs ∨ c = ["pull", "--rebase", REMOTE_NAME, b]) :
    isMaintCmd c = false := by
  rcases hpush with rfl | rfl <;>
    rcases hc with rfl | rfl | rfl | rfl | rfl <;>
      simp [isMaintCmd, revHeadArgs, upArgsOf]

theorem pushChanges_no_maint (w : World) (k d : Nat) (pa : Bool)
    (h : pa = false ∨ d = 0) :
    ∀ c ∈ (pushChanges w k d pa).2.1, isMaintCmd c = false := by
  intro c hc
  simp only [pushChanges, currentBranch_eq, branchHasUpstream_eq] at hc
  have hfin := pushChanges_core_no_maint c (branchOf (w.git k revHeadArgs))
  cases hu : isOkE (w.git (k + 1) (upArgsOf (branchOf (w.git k revHeadArgs)))) <;>
    simp only [hu, Bool.false_eq_true, Bool.true_eq_false, if_false, if_true,
      eq_self_iff_true, reduceIte] at hc
  case false =>
    cases hfe : runGitCall w (k + 1 + 1) ["fetch", "--all"] with
    | error e =>
      simp only [hfe] at hc
      cases hm : nonFastForwardMsg e <;> simp only [hm, Bool.false_eq_true,
        Bool.true_eq_false, if_false, if_true, reduceIte] at hc
      case false =>
        exact hfin _ (Or.inr rfl) (by
              simp only [List.mem_append, List.mem_cons, List.not_mem_nil,
                or_false] at hc
              tauto)
      case true =>
        cases hpl : runGitCall w (k + 1 + 1 + 1)
            ["pull", "--rebase", REMOTE_NAME, branchOf (w.git k revHeadArgs)] with
        | error e2 =>
          simp only [hpl] at hc
          exact hfin _ (Or.inr rfl) (by
              simp only [List.mem_append, List.mem_cons, List.not_mem_nil,
                or_false] at hc
              tauto)
        | ok o2 =>
          simp only [hpl] at hc
          cases hp2 : runGitCall w (k + 1 + 1 + 1 + 1)
              ["push", "--set-upstream", REMOTE_NAME, branchOf (w.git k revHeadArgs)] with
          | ok o3 =>
            simp only [hp2] at hc
            rcases h with rfl | rfl <;>
              simp only [Bool.false_eq_true, if_false, reduceIte,
                pruneRepository_zero, List.append_nil, ite_self] at hc <;>
              exact hfin _ (Or.inr rfl) (by
              simp only [List.mem_append, List.mem_cons, List.not_mem_nil,
                or_false] at hc
              tauto)
          | error e3 =>
            simp only [hp2] at hc
            exact hfin _ (Or.inr rfl) (by
              simp only [List.mem_append, List.mem_cons, List.not_mem_nil,
                or_false] at hc
              tauto)
    | ok o =>
      simp only [hfe] at hc
      cases hpu : runGitCall w (k + 1 + 1 + 1)
          ["push", "--set-upstream", REMOTE_NAME, branchOf (w.git k revHeadArgs)] with
      | ok o1 =>
        simp only [hpu] at hc
        rcases h with rfl | rfl <;>
          simp only [Bool.false_eq_true, if_false, reduceIte,
            pruneRepository_zero, List.append_nil, ite_self] at hc <;>
          exact hfin _ (Or.inr rfl) (by
              simp only [List.mem_append, List.mem_cons, List.not_mem_nil,
                or_false] at hc
              tauto)
      | error e1 =>
        simp only [hpu] at hc
        cases hm : nonFastForwardMsg e1 <;> simp only [hm, Bool.false_eq_true,
          Bool.true_eq_false, if_false, if_true, reduceIte] at hc
        case false =>
          exact hfin _ (Or.inr rfl) (by
              simp only [List.mem_append, List.mem_cons, List.not_mem_nil,
                or_false] at hc
              tauto)
        case true =>
          cases hpl : runGitCall w (k + 1 + 1 + 2)
              ["pull", "--rebase", REMOTE_NAME, branchOf (w.git k revHeadArgs)] with
          | error e2 =>
            simp only [hpl] at hc
            exact hfin _ (Or.inr rfl) (by
              simp only [List.mem_append, List.mem_cons, List.not_mem_nil,
                or_false] at hc
              tauto)
          | ok o2 =>
            simp only [hpl] at hc
            cases hp2 : runGitCall w (k + 1 + 1 + 2 + 1)
                ["push", "--set-upstream", REMOTE_NAME, branchOf (w.git k revHeadArgs)] with
            | ok o3 =>
              simp only [hp2] at hc
              rcases h with rfl | rfl <;>
                simp only [Bool.false_eq_true, if_false, reduceIte,
                  pruneRepository_zero, List.append_nil, ite_self] at hc <;>
                exact hfin _ (Or.inr rfl) (by
              simp only [List.mem_append, List.mem_cons, List.not_mem_nil,
                or_false] at hc
              tauto)
            | error e3 =>
              simp only [hp2] at hc
              exact hfin _ (Or.inr rfl) (by
              simp only [List.mem_append, List.mem_cons, List.not_mem_nil,
                or_false] at hc
              tauto)
  case true =>
    cases hfe : runGitCall w (k + 1 + 1) ["fetch", "--all"] with
    | error e =>
      simp only [hfe] at hc
      cases hm : nonFastForwardMsg e <;> simp only [hm, Bool.false_eq_true,
        Bool.true_eq_false, if_false, if_true, reduceIte] at hc
      case false =>
        exact hfin _ (Or.inl rfl) (by
              simp only [List.mem_append, List.mem_cons, List.not_mem_nil,
                or_false] at hc
              tauto)
      case true =>
        cases hpl : runGitCall w (k + 1 + 1 + 1)
            ["pull", "--rebase", REMOTE_NAME, branchOf (w.git k revHeadArgs)] with
        | error e2 =>
          simp only [hpl] at hc
          exact hfin _ (Or.inl rfl) (by
              simp only [List.mem_append, List.mem_cons, List.not_mem_nil,
                or_false] at hc
              tauto)
        | ok o2 =>
          simp only [hpl] at hc
          cases hp2 : runGitCall w (k + 1 + 1 + 1 + 1)
              ["push", REMOTE_NAME, branchOf (w.git k revHeadArgs)] with
          | ok o3 =>
            simp only [hp2] at hc
            rcases h with rfl | rfl <;>
              simp only [Bool.false_eq_true, if_false, reduceIte,
                pruneRepository_zero, List.append_nil, ite_self] at hc <;>
              exact hfin _ (Or.inl rfl) (by
              simp only [List.mem_append, List.mem_cons, List.not_mem_nil,
                or_false] at hc
              tauto)
          | error e3 =>
            simp only [hp2] at hc
            exact hfin _ (Or.inl rfl) (by
              simp only [List.mem_append, List.mem_cons, List.not_mem_nil,
                or_false] at hc
              tauto)
    | ok o =>
      simp only [hfe] at hc
      cases hpu : runGitCall w (k + 1 + 1 + 1)
          ["push", REMOTE_NAME, branchOf (w.git k revHeadArgs)] with
      | ok o1 =>
        simp only [hpu] at hc
        rcases h with rfl | rfl <;>
          simp only [Bool.false_eq_true, if_false, reduceIte,
            pruneRepository_zero, List.append_nil, ite_self] at hc <;>
          exact hfin _ (Or.inl rfl) (by
              simp only [List.mem_append, List.mem_cons, List.not_mem_nil,
                or_false] at hc
              tauto)
      | error e1 =>
        simp only [hpu] at hc
        cases hm : nonFastForwardMsg e1 <;> simp only [hm, Bool.false_eq_true,
          Bool.true_eq_false, if_false, if_true, reduceIte] at hc
        case false =>
          exact hfin _ (Or.inl rfl) (by
              simp only [List.mem_append, List.mem_cons, List.not_mem_nil,
                or_false] at hc
              tauto)
        case true =>
          cases hpl : runGitCall w (k + 1 + 1 + 2)
              ["pull", "--rebase", REMOTE_NAME, branchOf (w.git k revHeadArgs)] with
          | error e2 =>
            simp only [hpl] at hc
            exact hfin _ (Or.inl rfl) (by
              simp only [List.mem_append, List.mem_cons, List.not_mem_nil,
                or_false] at hc
              tauto)
          | ok o2 =>
            simp only [hpl] at hc
            cases hp2 : runGitCall w (k + 1 + 1 + 2 + 1)
                ["push", REMOTE_NAME, branchOf (w.git k revHeadArgs)] with
            | ok o3 =>
              simp only [hp2] at hc
              rcases h with rfl | rfl <;>
                simp only [Bool.false_eq_true, if_false, reduceIte,
                  pruneRepository_zero, List.append_nil, ite_self] at hc <;>
                exact hfin _ (Or.inl rfl) (by
              simp only [List.mem_append, List.mem_cons, List.not_mem_nil,
                or_false] at hc
              tauto)
            | error e3 =>
              simp only [hp2] at hc
              exact hfin _ (Or.inl rfl) (by
              simp only [List.mem_append, List.mem_cons, List.not_mem_nil,
                or_false] at hc
              tauto)

end GiteaAutoSync

namespace GiteaAutoSync

theorem hasStagedChanges_eq (w : World) (k : Nat) :
    hasStagedChanges w k = (k + 1, [["diff", "--cached", "--quiet"]],
      match w.git k ["diff", "--cached", "--quiet"] with
      | .ok _ => .ok false
      | .error e => if e.code == 1 then .ok true else .error e.msg) := by
  unfold hasStagedChanges
  cases h : w.git k ["diff", "--cached", "--quiet"] <;> simp [h]

theorem hasPendingChanges_eq (w : World) (k : Nat) :
    hasPendingChanges w k = (k + 1, [["status", "--porcelain"]],
      match runGitCall w k ["status", "--porcelain"] with
      | .ok o => .ok (!(o.stdout == ""))
      | .error e => .error ("Unable to check git status: " ++ e)) := by
  unfold hasPendingChanges
  cases h : runGitCall w k ["status", "--porcelain"] <;> simp [h]

theorem ensureGitConfig_no_maint (w : World) (k : Nat) (key value : String) :
    ∀ c ∈ (ensureGitConfig w k key value).2.1, isMaintCmd c = false := by
  intro c hc
  simp only [ensureGitConfig] at hc
  split at hc <;> (try split at hc) <;>
    simp_all [isMaintCmd] <;>
    (rcases hc with rfl | rfl <;> simp)

theorem andThen_no_maint (prev : Nat × List Cmd × Except String Unit)
    (next : Nat → Nat × List Cmd × Except String Unit)
    (hp : ∀ c ∈ prev.2.1, isMaintCmd c = false)
    (hn : ∀ j, ∀ c ∈ (next j).2.1, isMaintCmd c = false) :
    ∀ c ∈ (andThen prev next).2.1, isMaintCmd c = false := by
  unfold andThen
  rcases prev with ⟨k, t, r⟩
  cases r with
  | error e => exact hp
  | ok _ =>
    intro c hc
    simp only [List.mem_append] at hc
    rcases hc with hc | hc
    · exact hp c hc
    · exact hn k c hc

theorem ensureGitIdentity_no_maint (w : World) (k : Nat) (an ae : String) :
    ∀ c ∈ (ensureGitIdentity w k an ae).2.1, isMaintCmd c = false := by
  unfold ensureGitIdentity
  apply andThen_no_maint
  apply andThen_no_maint
  apply andThen_no_maint
  apply andThen_no_maint
  all_goals first
    | exact ensureGitConfig_no_maint w k _ _
    | (intro j; exact ensureGitConfig_no_maint w j _ _)

theorem ensureRemote_no_maint (w : World) (k : Nat) (bu ow rn : String) :
    ∀ c ∈ (ensureRemote w k bu ow rn).2.1, isMaintCmd c = false := by
  intro c hc
  simp only [ensureRemote] at hc
  split at hc <;> (try split at hc) <;> (try split at hc) <;>
    simp_all [isMaintCmd] <;>
    first
      | (rcases hc with rfl | rfl <;> simp)
      | (subst hc; simp)

theorem ensureFullHistory_no_maint (w : World) (k : Nat) :
    ∀ c ∈ (ensureFullHistory w k).2, isMaintCmd c = false := by
  intro c hc
  simp only [ensureFullHistory] at hc
  split at hc <;> (try split at hc) <;>
    simp_all [isMaintCmd] <;>
    first
      | (rcases hc with rfl | rfl <;> simp)
      | (subst hc; simp)

theorem ensureLocalGitRepo_no_maint (w : World) (k : Nat) :
    ∀ c ∈ (ensureLocalGitRepo w k).2.1, isMaintCmd c = false := by
  intro c hc
  simp only [ensureLocalGitRepo] at hc
  split at hc <;> (try split at hc) <;>
    simp_all [isMaintCmd]

theorem stageAll_no_maint (w : World) (k : Nat) :
    ∀ c ∈ (stageAll w k).2.1, isMaintCmd c = false := by
  intro c hc
  simp only [stageAll] at hc
  split at hc <;> simp_all [isMaintCmd]

theorem commitChanges_no_maint (w : World) (k : Nat) (now : String) :
    ∀ c ∈ (commitChanges w k now).2.1, isMaintCmd c = false := by
  intro c hc
  simp only [commitChanges] at hc
  split at hc <;> (try split at hc) <;> simp_all [isMaintCmd]

theorem syncSinglePath_no_maint (w : World) (k0 : Nat) (proj abs : PathT)
    (ev : String) (d : Nat) (now : String) :
    ∀ c ∈ (syncSinglePath w k0 proj abs ev d now).2.1, isMaintCmd c = false := by
  intro c hc
  simp only [syncSinglePath, hasStagedChanges_eq] at hc
  split at hc
  case isTrue => simp at hc
  case isFalse =>
    split at hc <;> (try split at hc) <;> (try split at hc) <;>
      (try split at hc) <;>
      simp only [List.mem_append, List.mem_cons, List.not_mem_nil, or_false,
        List.mem_singleton, or_assoc] at hc <;>
      first
        | (rcases hc with rfl | rfl | rfl | hc <;>
            first
              | exact pushChanges_no_maint w _ d false (Or.inl rfl) c hc
              | (split <;> simp [isMaintCmd])
              | simp [isMaintCmd])
        | (rcases hc with rfl | rfl | rfl <;>
            first
              | (split <;> simp [isMaintCmd])
              | simp [isMaintCmd])
        | (rcases hc with rfl | rfl <;>
            first
              | (split <;> simp [isMaintCmd])
              | simp [isMaintCmd])
        | (subst hc
           first
             | (split <;> simp [isMaintCmd])
             | simp [isMaintCmd])

end GiteaAutoSync

namespace GiteaAutoSync

theorem fullHistoryStep_no_maint (w : World) (j : Nat) :
    ∀ c ∈ ((ensureFullHistory w j).1, (ensureFullHistory w j).2,
        (Except.ok () : Except String Unit)).2.1, isMaintCmd c = false :=
  ensureFullHistory_no_maint w j

theorem syncProjectGit_no_maint (w : World) (bu ow rn an ae : String)
    (now : String) :
    ∀ c ∈ (syncProjectGit w bu ow rn an ae 0 now).2.1, isMaintCmd c = false := by
  intro c hc
  simp only [syncProjectGit, hasPendingChanges_eq] at hc
  split at hc
  case h_1 k1 t1 e heq =>
    have h1 := ensureLocalGitRepo_no_maint w 0
    rw [heq] at h1
    exact h1 c hc
  case h_2 k1 t1 inited heq =>
    have hbase : ∀ c2 ∈ ((k1, t1, Except.ok ()) :
        Nat × List Cmd × Except String Unit).2.1, isMaintCmd c2 = false := by
      have h1 := ensureLocalGitRepo_no_maint w 0
      rw [heq] at h1
      exact h1
    have hstep := andThen_no_maint _ _
      (andThen_no_maint _ _
        (andThen_no_maint _ _
          (andThen_no_maint _ _ hbase
            (fun j => ensureGitIdentity_no_maint w j an ae))
          (fun j => ensureRemote_no_maint w j bu ow rn))
        (fun j => fullHistoryStep_no_maint w j))
      (fun j => stageAll_no_maint w j)
    split at hc
    case h_1 => exact hbase c hc
    case h_2 =>
      split at hc
      case h_1 => exact hbase c hc
      case h_2 =>
        split at hc
        case h_1 k4 t4 e2 heq2 =>
          rw [heq2] at hstep
          exact hstep c hc
        case h_2 k4 t4 u2 heq2 =>
          rw [heq2] at hstep
          split at hc
          case h_1 eS heqS =>
            simp only [List.mem_append, List.mem_cons, List.not_mem_nil,
              or_false, List.mem_singleton, or_assoc] at hc
            rcases hc with hc | rfl
            · exact hstep c hc
            · simp [isMaintCmd]
          case h_2 changesDetected heqS =>
            have hcommit : ∀ c2 ∈ (if changesDetected = true
                then commitChanges w (k4 + 1) now
                else (k4 + 1, ([] : List Cmd), Except.ok ())).2.1,
                isMaintCmd c2 = false := by
              split
              · exact commitChanges_no_maint w (k4 + 1) now
              · intro c2 hc2
                simp at hc2
            split at hc
            case h_1 k5 t5 e5 heq5 =>
              rw [heq5] at hcommit
              simp only [List.mem_append, List.mem_cons, List.not_mem_nil,
                or_false, List.mem_singleton, or_assoc] at hc
              rcases hc with hc | rfl | hc
              · exact hstep c hc
              · simp [isMaintCmd]
              · exact hcommit c hc
            case h_2 k5 t5 u5 heq5 =>
              rw [heq5] at hcommit
              simp only [List.mem_append, List.mem_cons, List.not_mem_nil,
                or_false, List.mem_singleton, or_assoc] at hc
              rcases hc with hc | rfl | hc | hc
              · exact hstep c hc
              · simp [isMaintCmd]
              · exact hcommit c hc
              · exact pushChanges_no_maint w _ 0 true (Or.inr rfl) c hc

end GiteaAutoSync

namespace GiteaAutoSync

theorem syncProject_no_maint (w : World) (bu ow rn an ae now : String) :
    ∀ c ∈ (syncProject w bu ow rn an ae 0 now).2.2.1, isMaintCmd c = false := by
  intro c hc
  simp only [syncProject] at hc
  split at hc
  · simp at hc
  · exact syncProjectGit_no_maint w bu ow rn an ae now c hc

/-- **C9**: the quick-sync path never issues a maintenance command (`reflog`
or `gc`) under any environment and any configured threshold, since it pushes
with pruning disabled; with a zero (or unset, which parses to zero) prune-age
threshold a full project sync never issues a maintenance command either; and
in a successful full sync with a nonzero threshold the `reflog expire` and
`gc` commands are issued exactly once each, directly after the push. -/
theorem maintenance_only_after_full_sync :
    (∀ (w : World) (k0 : Nat) (proj abs : PathT) (ev : String) (d : Nat)
        (now : String), ∀ c ∈ (syncSinglePath w k0 proj abs ev d now).2.1,
      isMaintCmd c = false) ∧
    (∀ (w : World) (bu ow rn an ae now : String),
      ∀ c ∈ (syncProject w bu ow rn an ae 0 now).2.2.1,
        isMaintCmd c = false) ∧
    (syncProject happyWorld "http://g" "o" "demo" "A" "a@b" 1 "T").2.2.1 =
      [["config", "--get", "user.name"], ["config", "--get", "user.email"],
       ["config", "--get", "commit.gpgsign"], ["config", "--get", "http.postBuffer"],
       ["config", "--get", "http.maxRequestBuffer"], ["remote", "get-url", "gitea"],
       ["rev-parse", "--is-shallow-repository"], ["add", "--all"],
       ["status", "--porcelain"], ["commit", "-m", "Auto backup T"],
       ["rev-parse", "--abbrev-ref", "HEAD"],
       ["rev-parse", "--abbrev-ref", "--symbolic-full-name", "main@{u}"],
       ["fetch", "--all"], ["push", "gitea", "main"],
       ["reflog", "expire", "--expire=1.days", "--all"], ["gc", "--prune=1.days"]] :=
  ⟨syncSinglePath_no_maint, syncProject_no_maint, rfl⟩

/-- Witness for `maintenance_only_after_full_sync`: concrete commands issued
by a quick sync and by a zero-threshold full sync in `happyWorld` are not
maintenance commands. -/
theorem maintenance_only_after_full_sync_witness :
    isMaintCmd ["add", "x"] = false ∧
      isMaintCmd ["status", "--porcelain"] = false :=
  ⟨maintenance_only_after_full_sync.1 happyWorld 0 ["p"] ["p", "x"] "change" 1
      "T" ["add", "x"] (by decide),
    maintenance_only_after_full_sync.2.1 happyWorld "http://g" "o" "demo" "A"
      "a@b" "T" ["status", "--porcelain"] (by decide)⟩

end GiteaAutoSync

namespace GiteaAutoSync

/-- **C7**: `ensureGiteaRepository` queries the repository under the owner;
when it exists nothing is created; a 404 creates it with exactly
`private = true`, `default_branch = "main"`, `auto_init = false`, and the
creation call's own outcome is the step's outcome; any other failure is
rethrown (wrapped) — and it then aborts only that project's sync, before any
git command runs, while the full-sync sweep still attempts every other
discovered project. -/
theorem ensureGiteaRepository_spec :
    (∀ (w : World) (ow rn : String), w.getRepo = .ok →
      ensureGiteaRepository w ow rn = ([.getRepo ow rn], .ok ())) ∧
    (∀ (w : World) (ow rn : String), w.getRepo = .notFound →
      ensureGiteaRepository w ow rn =
        ([.getRepo ow rn, .createRepo ⟨rn, true, "main", false⟩],
         w.createRepo)) ∧
    (∀ (w : World) (ow rn msg : String), w.getRepo = .otherError msg →
      ensureGiteaRepository w ow rn =
        ([.getRepo ow rn],
         .error ("Failed to ensure repository on Gitea: " ++ msg))) ∧
    (∀ (w : World) (bu ow rn an ae : String) (d : Nat) (now msg : String),
      w.getRepo = .otherError msg →
      syncProject w bu ow rn an ae d now =
        ([.getRepo ow rn], 0, [],
         .error ("Failed to ensure repository on Gitea: " ++ msg))) ∧
    (∀ (ws : PathT → World) (bu ow an ae : String) (d : Nat) (now : String)
        (projects : List PathT),
      (runFullSyncSweep ws bu ow an ae d now projects).map Prod.fst =
        projects) := by
  refine ⟨?_, ?_, ?_, ?_, ?_⟩
  · intro w ow rn h
    unfold ensureGiteaRepository
    rw [h]
  · intro w ow rn h
    unfold ensureGiteaRepository
    rw [h]
    cases w.createRepo <;> rfl
  · intro w ow rn msg h
    unfold ensureGiteaRepository
    rw [h]
  · intro w bu ow rn an ae d now msg h
    unfold syncProject ensureGiteaRepository
    rw [h]
  · intro ws bu ow an ae d now projects
    induction projects with
    | nil => rfl
    | cons p ps ih => simp [runFullSyncSweep, ih]

/-- Witness for `ensureGiteaRepository_spec` in the three concrete API
environments and a two-project sweep in which every sync fails. -/
theorem ensureGiteaRepository_spec_witness :
    ensureGiteaRepository okWorld "o" "r" = ([.getRepo "o" "r"], .ok ()) ∧
      ensureGiteaRepository notFoundWorld "o" "r" =
        ([.getRepo "o" "r", .createRepo ⟨"r", true, "main", false⟩], .ok ()) ∧
      ensureGiteaRepository apiErrWorld "o" "r" =
        ([.getRepo "o" "r"],
         .error ("Failed to ensure repository on Gitea: " ++ "boom")) ∧
      syncProject apiErrWorld "http://g" "o" "r" "A" "a@b" 0 "T" =
        ([.getRepo "o" "r"], 0, [],
         .error ("Failed to ensure repository on Gitea: " ++ "boom")) ∧
      (runFullSyncSweep (fun _ => apiErrWorld) "http://g" "o" "A" "a@b" 0 "T"
          [["r", "a"], ["r", "b"]]).map Prod.fst = [["r", "a"], ["r", "b"]] :=
  ⟨ensureGiteaRepository_spec.1 okWorld "o" "r" rfl,
    ensureGiteaRepository_spec.2.1 notFoundWorld "o" "r" rfl,
    ensureGiteaRepository_spec.2.2.1 apiErrWorld "o" "r" "boom" rfl,
    ensureGiteaRepository_spec.2.2.2.1 apiErrWorld "http://g" "o" "r" "A" "a@b"
      0 "T" "boom" rfl,
    ensureGiteaRepository_spec.2.2.2.2 (fun _ => apiErrWorld) "http://g" "o"
      "A" "a@b" 0 "T" [["r", "a"], ["r", "b"]]⟩

end GiteaAutoSync

namespace GiteaAutoSync

theorem startsWithSegs_iff (l r : PathT) : startsWithSegs l r = true ↔ r <+: l := by
  induction r generalizing l with
  | nil => simp [startsWithSegs]
  | cons b bs ih =>
    cases l with
    | nil => simp [startsWithSegs]
    | cons a as =>
      constructor
      · intro h
        simp only [startsWithSegs, Bool.and_eq_true, beq_iff_eq] at h
        exact List.cons_prefix_cons.mpr ⟨h.1.symm, (ih as).mp h.2⟩
      · intro h
        rcases List.cons_prefix_cons.mp h with ⟨rfl, h2⟩
        simp only [startsWithSegs, Bool.and_eq_true, beq_self_eq_true, true_and]
        exact (ih as).mpr h2

theorem findRoot_pred_iff (absolute r : PathT) :
    (absolute == r || (startsWithSegs absolute r && !(absolute == r))) = true ↔
      r <+: absolute := by
  by_cases h : absolute = r
  · subst h
    simp
  · simp [h, startsWithSegs_iff, beq_iff_eq]

theorem roots_prefix_unique (roots : List PathT)
    (hpw : roots.Pairwise fun a b => ¬ a <+: b ∧ ¬ b <+: a)
    {r1 r2 p : PathT} (h1 : r1 ∈ roots) (h2 : r2 ∈ roots)
    (hp1 : r1 <+: p) (hp2 : r2 <+: p) : r1 = r2 := by
  by_contra hne
  have hsym : Symmetric fun a b : PathT => ¬ a <+: b ∧ ¬ b <+: a := by
    intro a b hab
    exact ⟨hab.2, hab.1⟩
  have hr := List.Pairwise.forall hsym hpw h1 h2 hne
  rcases List.prefix_or_prefix_of_prefix hp1 hp2 with h | h
  · exact hr.1 h
  · exact hr.2 h

theorem findRoot_eq_some_iff (roots : List PathT) (p : PathT)
    (hpw : roots.Pairwise fun a b => ¬ a <+: b ∧ ¬ b <+: a) (r : PathT) :
    findRoot roots p = some r ↔ r ∈ roots ∧ r <+: p := by
  unfold findRoot
  constructor
  · intro h
    refine ⟨List.mem_of_find?_eq_some h, (findRoot_pred_iff p r).mp ?_⟩
    have hpred := List.find?_some h
    exact hpred
  · rintro ⟨hmem, hpre⟩
    have hex : (roots.find? fun r2 =>
        p == r2 || (startsWithSegs p r2 && !(p == r2))).isSome := by
      rw [List.find?_isSome]
      exact ⟨r, hmem, (findRoot_pred_iff p r).mpr hpre⟩
    obtain ⟨r', hr'⟩ := Option.isSome_iff_exists.mp hex
    have hmem' := List.mem_of_find?_eq_some hr'
    have hpred' := List.find?_some hr'
    have hpre' := (findRoot_pred_iff p r').mp hpred' 
    rw [hr']
    exact congrArg some (roots_prefix_unique roots hpw hmem' hmem hpre' hpre)

theorem findRoot_eq_none_iff (roots : List PathT) (p : PathT) :
    findRoot roots p = none ↔ ∀ r ∈ roots, ¬ r <+: p := by
  unfold findRoot
  rw [List.find?_eq_none]
  constructor
  · intro h r hr hpre
    exact h r hr ((findRoot_pred_iff p r).mpr hpre)
  · intro h r hr hpred
    exact h r hr ((findRoot_pred_iff p r).mp hpred)

theorem lcpLen_self_append (r m : PathT) : lcpLen r (r ++ m) = r.length := by
  induction r with
  | nil => cases m <;> rfl
  | cons a as ih => simp [lcpLen, ih]

theorem relativeSegs_self_append (r m : PathT) : relativeSegs r (r ++ m) = m := by
  unfold relativeSegs
  rw [lcpLen_self_append]
  simp [List.drop_left]

theorem dotdot_starts_dot (t : String) (h : strStartsWith t ".." = true) :
    strStartsWith t "." = true := by
  unfold strStartsWith at *
  cases hd : t.data with
  | nil => rw [hd] at h; simp [charsStart] at h
  | cons c cs =>
    rw [hd] at h
    cases cs with
    | nil => simp [charsStart] at h
    | cons c2 cs2 =>
      simp [charsStart] at h ⊢
      exact h.1

end GiteaAutoSync

namespace GiteaAutoSync

theorem resolveProject_aux_unique (roots : List PathT)
    (hpw : roots.Pairwise fun a b => ¬ a <+: b ∧ ¬ b <+: a)
    {r r' : PathT} {m : List String} {t : String} {rest : List String}
    (hrmem : r ∈ roots) (hr' : r' ∈ roots)
    (heq : r ++ m = r' ++ t :: rest) : r' = r ∧ r ++ m = r ++ t :: rest := by
  have hpre' : r' <+: r ++ m := ⟨t :: rest, heq.symm⟩
  have hpre : r <+: r ++ m := ⟨m, rfl⟩
  have hrr : r' = r := roots_prefix_unique roots hpw hr' hrmem hpre' hpre
  subst hrr
  exact ⟨rfl, heq⟩

/-- **C6**: for non-nested configured roots and a resolved absolute path
`p` (nonempty segments), `resolveProjectFromPath` returns `some q` exactly
when `q` is the direct child of a configured root that is an ancestor of
`p` and whose top-level segment does not start with the hidden marker `.`;
and it returns `null` exactly when `p` lies outside every configured root,
equals a configured root itself, or its top-level segment under the root
starts with `.` (a leading `..` also starts with `.`). -/
theorem resolveProject_top_level (roots : List PathT) (p : PathT)
    (hseg : ∀ s ∈ p, s ≠ "")
    (hpw : roots.Pairwise fun a b => ¬ a <+: b ∧ ¬ b <+: a) :
    (∀ q, resolveProjectFromPath roots p = some q ↔
      ∃ r ∈ roots, ∃ t rest, p = r ++ t :: rest ∧
        strStartsWith t "." = false ∧ q = r ++ [t]) ∧
    (resolveProjectFromPath roots p = none ↔
      (∀ r ∈ roots, ¬ r <+: p) ∨ p ∈ roots ∨
        ∃ r ∈ roots, ∃ t rest, p = r ++ t :: rest ∧
          strStartsWith t "." = true) := by
  cases hfr : findRoot roots p with
  | none =>
    have hout := (findRoot_eq_none_iff roots p).mp hfr
    constructor
    · intro q
      simp only [resolveProjectFromPath, hfr]
      constructor
      · intro h
        cases h
      · rintro ⟨r, hr, t, rest, rfl, -, -⟩
        exact absurd ⟨t :: rest, rfl⟩ (hout r hr)
    · simp only [resolveProjectFromPath, hfr]
      exact ⟨fun _ => Or.inl hout, fun _ => trivial⟩
  | some r =>
    obtain ⟨hrmem, hrpre⟩ := (findRoot_eq_some_iff roots p hpw r).mp hfr
    obtain ⟨m, rfl⟩ := hrpre
    simp only [resolveProjectFromPath, hfr, relativeSegs_self_append]
    cases m with
    | nil =>
      simp only [List.isEmpty_nil, reduceIte]
      constructor
      · intro q
        constructor
        · intro h
          cases h
        · rintro ⟨r', hr', t, rest, heq, -, -⟩
          obtain ⟨-, habs⟩ := resolveProject_aux_unique roots hpw hrmem hr' heq
          have h2 := List.append_cancel_left habs
          cases h2
      · constructor
        · intro _
          exact Or.inr (Or.inl (by simpa using hrmem))
        · intro _
          trivial
    | cons t rest =>
      have ht : t ≠ "" := hseg t (by simp)
      have hrest : ∀ s ∈ rest, s ≠ "" := fun s hs => hseg s (by simp [hs])
      simp only [List.isEmpty_cons, relStartsDotDot, Bool.false_eq_true,
        if_false]
      rcases Bool.eq_false_or_eq_true (strStartsWith t "..") with hdd | hdd
      · -- leading dot-dot: hidden
        have hdot := dotdot_starts_dot t hdd
        simp only [hdd, reduceIte]
        constructor
        · intro q
          constructor
          · intro h
            cases h
          · rintro ⟨r', hr', t', rest', heq, hnd', -⟩
            obtain ⟨-, habs⟩ := resolveProject_aux_unique roots hpw hrmem hr' heq
            obtain ⟨rfl, -⟩ := List.cons.inj (List.append_cancel_left habs)
            rw [hdot] at hnd'
            cases hnd'
        · constructor
          · intro _
            exact Or.inr (Or.inr ⟨r, hrmem, t, rest, rfl, hdot⟩)
          · intro _
            trivial
      · -- no leading dot-dot
        simp only [hdd, Bool.false_eq_true, if_false]
        have hfilter : (t :: rest).filter (fun s => !(s == "")) = t :: rest := by
          rw [List.filter_eq_self]
          intro a ha
          rcases List.mem_cons.mp ha with rfl | ha
          · simp [ht]
          · simp [hrest a ha]
        rw [hfilter]
        have htb : (t == "") = false := by
          simpa using ht
        simp only [htb, Bool.false_or]
        rcases Bool.eq_false_or_eq_true (strStartsWith t ".") with hdot | hdot
        · -- hidden top-level entry
          simp only [hdot, reduceIte]
          constructor
          · intro q
            constructor
            · intro h
              cases h
            · rintro ⟨r', hr', t', rest', heq, hnd', -⟩
              obtain ⟨-, habs⟩ := resolveProject_aux_unique roots hpw hrmem hr' heq
              obtain ⟨rfl, -⟩ := List.cons.inj (List.append_cancel_left habs)
              rw [hdot] at hnd'
              cases hnd'
          · constructor
            · intro _
              exact Or.inr (Or.inr ⟨r, hrmem, t, rest, rfl, hdot⟩)
            · intro _
              trivial
        · -- visible top-level entry: the project is resolved
          simp only [hdot, Bool.false_eq_true, if_false]
          constructor
          · intro q
            constructor
            · intro h
              obtain rfl : r ++ [t] = q := Option.some.inj h
              exact ⟨r, hrmem, t, rest, rfl, hdot, rfl⟩
            · rintro ⟨r', hr', t', rest', heq, hnd', rfl⟩
              obtain ⟨rfl, habs⟩ := resolveProject_aux_unique roots hpw hrmem hr' heq
              obtain ⟨rfl, -⟩ := List.cons.inj (List.append_cancel_left habs)
              rfl
          · constructor
            · intro h
              cases h
            · intro h
              rcases h with hno | hmemp | ⟨r', hr', t', rest', heq, hd'⟩
              · exact absurd ⟨t :: rest, rfl⟩ (hno r hrmem)
              · have hpp : (r ++ t :: rest) <+: (r ++ t :: rest) := ⟨[], by simp⟩
                have hrp : r <+: (r ++ t :: rest) := ⟨t :: rest, rfl⟩
                have h2 := roots_prefix_unique roots hpw hmemp hrmem hpp hrp
                have hlen := congrArg List.length h2
                simp at hlen
              · obtain ⟨-, habs⟩ := resolveProject_aux_unique roots hpw hrmem hr' heq
                obtain ⟨rfl, -⟩ := List.cons.inj (List.append_cancel_left habs)
                rw [hdot] at hd'
                cases hd'

end GiteaAutoSync

namespace GiteaAutoSync

theorem brokenGitTail_mem (s : List Char) (h : brokenGitTail s = true) :
    '\\' ∈ s := by
  unfold brokenGitTail at h
  split at h
  · simp
  · cases h

theorem brokenGitSearch_mem (s : List Char) (h : brokenGitSearch s = true) :
    '\\' ∈ s := by
  induction s with
  | nil => cases h
  | cons c rest ih =>
    unfold brokenGitSearch at h
    simp only [Bool.or_eq_true, Bool.and_eq_true] at h
    rcases h with ⟨-, h1⟩ | h1
    · exact List.mem_cons_of_mem _ (brokenGitTail_mem rest h1)
    · exact List.mem_cons_of_mem _ (ih h1)

theorem brokenGitTest_mem (s : List Char) (h : brokenGitTest s = true) :
    '\\' ∈ s := by
  unfold brokenGitTest at h
  simp only [Bool.or_eq_true] at h
  rcases h with h1 | h1
  · exact brokenGitTail_mem s h1
  · exact brokenGitSearch_mem s h1

theorem normalizeSlashes_no_backslash (s : String) :
    '\\' ∉ (normalizeSlashes s).data := by
  unfold normalizeSlashes
  intro h
  simp only [List.mem_map] at h
  obtain ⟨c, -, hc⟩ := h
  by_cases h2 : c = '\\' <;> simp [h2] at hc

theorem brokenGit_never_matches (filePath : String) :
    matchCompiled CompiledPattern.brokenGit (normalizeSlashes filePath).data =
      false := by
  unfold matchCompiled
  cases ht : brokenGitTest (normalizeSlashes filePath).data
  · rfl
  · exact absurd (brokenGitTest_mem _ ht) (normalizeSlashes_no_backslash filePath)

end GiteaAutoSync

namespace GiteaAutoSync

/-- Witness for `resolveProject_top_level`: under the root
`/home/projects`, the path `/home/projects/demo/a.txt` resolves to the
project `/home/projects/demo`. -/
theorem resolveProject_top_level_witness :
    resolveProjectFromPath [["home", "projects"]]
        ["home", "projects", "demo", "a.txt"] =
      some ["home", "projects", "demo"] :=
  ((resolveProject_top_level [["home", "projects"]]
      ["home", "projects", "demo", "a.txt"] (by decide) (by simp)).1
    ["home", "projects", "demo"]).mpr
    ⟨["home", "projects"], by simp, "demo", ["a.txt"], rfl, by decide, rfl⟩

/-- **C8** (code bug): the chokidar ignore predicate built by
`buildChokidarIgnorePatterns` does not ignore paths inside a `.git`
directory.  Its "always ignore .git" regex literal
`/(^|[/\\])\\.git($|[/\\])/` demands a literal backslash character (the
`\\` escape inside a regex literal), while the tested path is first
normalized to forward slashes, so the pattern can never match: with the
user-supplied empty pattern list (a valid configuration) and no per-project
filters, the path `/projects/demo/.git/HEAD` is reported as not ignored,
although it contains a `.git` segment.  In contrast, the directory-segment
set built by `updateIgnoreDirectorySegments` always contains `.git`, and
the segment-based predicate `shouldIgnorePath` (the watcher filter of the
`part_000` variant, dead code in `src/index.js`) does ignore that path. -/
theorem chokidar_dotgit_not_ignored :
    buildChokidarIgnorePatterns (some []) [] "/projects/demo/.git/HEAD" =
        false ∧
      containsSub "/projects/demo/.git/HEAD" "/.git/" = true ∧
      (∀ filePath : String,
        matchCompiled CompiledPattern.brokenGit
          (normalizeSlashes filePath).data = false) ∧
      updateIgnoreDirectorySegments [] = [".git"] ∧
      shouldIgnorePath [["projects"]] (updateIgnoreDirectorySegments [])
        ["projects", "demo", ".git", "HEAD"] = true :=
  ⟨rfl, rfl, brokenGit_never_matches, rfl, rfl⟩

end GiteaAutoSync
